import Mathlib

/-!
# Verification model of the claude-orchestrator task engine

Shallow embedding of the orchestrator's core logic, translated from the
TypeScript sources:

* `src/utils/css-extractor.ts` — color normalization and spacing parsing
  (`normalizeColorValue`, `parseSpacingValue`);
* `src/utils/design-comparator.ts` — the design-token comparison algorithm
  (`compareDesignTokens`, `compareColors`, `compareSpacing`,
  `findMatchingToken`);
* `src/core/queue.ts` — the task store (`generateTaskId`, `addTask`,
  `updateTask`, `completeTask`, `rejectTask`, `setCurrentTask`,
  `getNextPendingTask`, …);
* `src/core/agent.ts` — the pipeline controller (`runReview`,
  `runDesignVerification`, `processTaskV2`) with mailbox handling.

Modeling conventions:

* JavaScript `Record<string, string>` maps are modeled as association lists
  `List (String × String)` whose list order is the object's key
  insertion/iteration order (`Object.entries` order).
* JavaScript numbers are modeled as exact rationals; `NaN` is modeled by the
  explicit `JSNum.nan` constructor where it can arise (`parseFloat`).
  The color-difference comparison `sqrt(d)/sqrt(3·255²)·100 ≤ tol` is modeled
  by the equivalent squared comparison `10000·d ≤ tol²·195075 ∧ 0 ≤ tol`,
  which is exact over the reals.
* Strings are Lean `String`s; character-level scanning (trim, regex matches)
  works on `String.data`.  The `difference` text of a discrepancy is modeled
  by a constructor carrying the exact numeric payload that the source
  formats into the string (an injective refinement of the formatted text).
* File I/O (`readJSON`/`writeJSON`) is modeled by explicit state passing;
  a mailbox file is a `MessageFile` value held in the `World` state.
-/

namespace Orchestrator

/-! ## JavaScript-style primitives -/

/-- JS whitespace test (ASCII part of `\s`), used by `trim` and `\s*`. -/
def isJsSpace (c : Char) : Bool :=
  c = ' ' || c = '\t' || c = '\n' || c = '\r' || c = '\x0b' || c = '\x0c'

/-- `String.prototype.trim`: drop whitespace from both ends. -/
def jsTrim (l : List Char) : List Char :=
  ((l.dropWhile isJsSpace).reverse.dropWhile isJsSpace).reverse

/-- JS number that is either NaN or an exact rational. -/
inductive JSNum where
  | nan
  | num (q : ℚ)
deriving DecidableEq, Repr

/-- NaN-propagating absolute difference `Math.abs(a - b)`. -/
def JSNum.absSub : JSNum → JSNum → JSNum
  | JSNum.num a, JSNum.num b => JSNum.num |a - b|
  | _, _ => JSNum.nan

/-- JS `x <= bound` (false when NaN). -/
def JSNum.leQ : JSNum → ℚ → Bool
  | JSNum.num a, b => decide (a ≤ b)
  | JSNum.nan, _ => false

/-- JS `x > bound` (false when NaN). -/
def JSNum.gtQ : JSNum → ℚ → Bool
  | JSNum.num a, b => decide (b < a)
  | JSNum.nan, _ => false

/-- Decimal digit run folded to a natural number. -/
def digitsVal (l : List Char) : ℕ :=
  l.foldl (fun acc c => 10 * acc + (c.toNat - '0'.toNat)) 0

/-- `parseFloat` on a string of digits and dots (the only shapes reaching it
through the `[\d.]+` / `^[\d.]+$` regexes): integer part, then an optional
fractional part after the first dot; NaN when no digit occurs before a
second dot would be read. -/
def jsParseFloat (l : List Char) : JSNum :=
  let intPart := l.takeWhile Char.isDigit
  let rest := l.drop intPart.length
  match rest with
  | '.' :: tl =>
      let fracPart := tl.takeWhile Char.isDigit
      if intPart.isEmpty ∧ fracPart.isEmpty then JSNum.nan
      else JSNum.num ((digitsVal intPart : ℚ) +
        (digitsVal fracPart : ℚ) / ((10 : ℚ) ^ fracPart.length))
  | _ =>
      if intPart.isEmpty then JSNum.nan
      else JSNum.num (digitsVal intPart : ℚ)

/-- `Math.round` (round half toward +∞). -/
def jsRound (q : ℚ) : ℤ := ⌊q + 1/2⌋

/-! ## `css-extractor.ts`: `parseSpacingValue` -/

/-- Does `l` end with `tail`? (JS `String.prototype.endsWith`.) -/
def endsWithChars (l tail : List Char) : Bool :=
  decide (l.drop (l.length - tail.length) = tail) && decide (tail.length ≤ l.length)

/-- Source `parseSpacingValue`: lowercase+trim, then try `^([\d.]+)px$`,
`^([\d.]+)rem$`, `^([\d.]+)em$` (rem/em scaled by 16), `^[\d.]+$`;
`none` models the `null` return. -/
def parseSpacingValue (value : String) : Option JSNum :=
  let t := (jsTrim value.data).map Char.toLower
  let isNumChars : List Char → Bool := fun l =>
    !l.isEmpty && l.all (fun c => c.isDigit || c = '.')
  let tryUnit : List Char → Option (List Char) := fun u =>
    if endsWithChars t u then
      let body := t.take (t.length - u.length)
      if isNumChars body then some body else none
    else none
  match tryUnit ['p', 'x'] with
  | some body => some (jsParseFloat body)
  | none =>
    match tryUnit ['r', 'e', 'm'] with
    | some body =>
        some (match jsParseFloat body with
          | JSNum.num q => JSNum.num (q * 16)
          | JSNum.nan => JSNum.nan)
    | none =>
      match tryUnit ['e', 'm'] with
      | some body =>
          some (match jsParseFloat body with
            | JSNum.num q => JSNum.num (q * 16)
            | JSNum.nan => JSNum.nan)
      | none =>
          if isNumChars t then some (jsParseFloat t) else none

/-! ## `css-extractor.ts`: `normalizeColorValue` -/

/-- `n.toString(16)` (lowercase hex digits, most significant first). -/
def natToHexChars (n : ℕ) : List Char := Nat.toDigits 16 n

/-- `n.toString(16).padStart(2, '0')`. -/
def hexByte (n : ℕ) : List Char :=
  let ds := natToHexChars n
  if ds.length < 2 then List.replicate (2 - ds.length) '0' ++ ds else ds

/-- Strip a literal character sequence from the front. -/
def stripLead : List Char → List Char → Option (List Char)
  | [], l => some l
  | _ :: _, [] => none
  | p :: ps, c :: cs => if c = p then stripLead ps cs else none

/-- Skip `\s*`. -/
def skipWs (l : List Char) : List Char := l.dropWhile isJsSpace

/-- Greedy `(\d+)` capture: value and remainder, `none` if no digit. -/
def takeDigits (l : List Char) : Option (ℕ × List Char) :=
  let ds := l.takeWhile Char.isDigit
  if ds.isEmpty then none else some (digitsVal ds, l.drop ds.length)

/-- Greedy `[\d.]+`: remainder after the run, `none` if the run is empty. -/
def takeFloatRun (l : List Char) : Option (List Char) :=
  let ds := l.takeWhile (fun c => c.isDigit || c = '.')
  if ds.isEmpty then none else some (l.drop ds.length)

/-- `\s*\)` at the end of the rgb pattern. -/
def closeParen (l : List Char) : Option (List Char) :=
  match skipWs l with
  | ')' :: rest => some rest
  | _ => none

/-- After the third channel: optional `(?:\s*,\s*[\d.]+)?` (greedy, with
backtracking to the no-alpha branch), then `\s*\)`. -/
def rgbTail (l : List Char) : Option (List Char) :=
  (match skipWs l with
    | ',' :: rest => (takeFloatRun (skipWs rest)).bind closeParen
    | _ => none).orElse (fun _ => closeParen l)

/-- Body of the rgb pattern after `rgba?`: `\s*\(\s*(\d+)\s*,\s*(\d+)\s*,\s*(\d+)…`. -/
def rgbBody (l : List Char) : Option (ℕ × ℕ × ℕ) :=
  match skipWs l with
  | '(' :: l1 =>
    (takeDigits (skipWs l1)).bind fun (r, l2) =>
      match skipWs l2 with
      | ',' :: l3 =>
        (takeDigits (skipWs l3)).bind fun (g, l4) =>
          match skipWs l4 with
          | ',' :: l5 =>
            (takeDigits (skipWs l5)).bind fun (b, l6) =>
              (rgbTail l6).map fun _ => (r, g, b)
          | _ => none
      | _ => none
  | _ => none

/-- Try the pattern `rgba?\s*\(…` anchored at the head of `l`
(`a?` is greedy: the branch consuming `a` is tried first). -/
def rgbMatchAt (l : List Char) : Option (ℕ × ℕ × ℕ) :=
  (stripLead ['r', 'g', 'b'] l).bind fun l1 =>
    match l1 with
    | 'a' :: l2 => (rgbBody l2).orElse (fun _ => rgbBody l1)
    | _ => rgbBody l1

/-- Unanchored leftmost search of the rgb pattern (JS `String.match` with a
non-anchored regex). -/
def rgbSearch : List Char → Option (ℕ × ℕ × ℕ)
  | [] => none
  | c :: rest =>
    match rgbMatchAt (c :: rest) with
    | some v => some v
    | none => rgbSearch rest

/-- Source `normalizeColorValue`: trim; `#`-prefixed values of length 4 are
expanded by doubling each of the three trailing characters and uppercased,
other `#`-prefixed values are uppercased; otherwise an `rgb()/rgba()` match
anywhere in the string is converted channel-wise to hex (alpha dropped);
anything else is returned trimmed and otherwise unchanged. -/
def normalizeColorValue (value : String) : String :=
  let t := jsTrim value.data
  if t.head? = some '#' then
    match t with
    | [_, r, g, b] => String.mk (('#' :: [r, r, g, g, b, b]).map Char.toUpper)
    | _ => String.mk (t.map Char.toUpper)
  else
    match rgbSearch t with
    | some (r, g, b) =>
        String.mk (('#' :: (hexByte r ++ hexByte g ++ hexByte b)).map Char.toUpper)
    | none => String.mk t

/-! ## `design-comparator.ts`: types -/

/-- Discrepancy token kind (`DiscrepancyItem['type']`). -/
inductive TokenKind where
  | color | font | spacing | borderRadius | shadow | other
deriving DecidableEq, Repr

/-- Discrepancy severity. -/
inductive Severity where
  | error | warning | info
deriving DecidableEq, Repr

/-- Result of `calculateColorDifference` on two normalized values:
either one side fails `hexToRgb` (treated as maximum difference, 100%), or
the squared RGB Euclidean distance is `d`
(the percentage is `100·sqrt(d)/sqrt(3·255²)`). -/
inductive ColorDiff where
  | unparseable
  | distSq (d : ℕ)
deriving DecidableEq, Repr

/-- The `difference` description of a discrepancy, carrying the exact payload
the source formats into the string. -/
inductive DiffInfo where
  | tokenNotFound                      -- 'Token not found in CSS'
  | colorDifference (cd : ColorDiff)   -- `Color difference: X%`
  | valuesDiffer                       -- 'Values differ (unparseable)'
  | spacingDifference (d : JSNum)      -- `Spacing difference: Xpx`
deriving DecidableEq, Repr

/-- `DiscrepancyItem`. -/
structure DiscrepancyItem where
  type : TokenKind
  tokenName : String
  expectedValue : String
  actualValue : String     -- 'NOT_FOUND' marks a missing token
  difference : DiffInfo
  severity : Severity
deriving DecidableEq, Repr

/-- Font token (unused by the comparator's strict algorithm). -/
structure FontToken where
  family : String
  size : String
  weight : String
  lineHeight : Option String := none
  letterSpacing : Option String := none
deriving DecidableEq, Repr

/-- `DesignTokens` (designer-authored expected set). -/
structure DesignTokens where
  colors : List (String × String)
  fonts : List (String × FontToken) := []
  spacing : List (String × String)
  borderRadius : Option (List (String × String)) := none
  shadows : Option (List (String × String)) := none
deriving DecidableEq, Repr

/-- `CSSTokens` (extracted implementation set). -/
structure CSSTokens where
  colors : List (String × String)
  fonts : List (String × FontToken) := []
  spacing : List (String × String)
  borderRadius : Option (List (String × String)) := none
  shadows : Option (List (String × String)) := none
deriving DecidableEq, Repr

/-- `ComparisonResult`. -/
structure ComparisonResult where
  verified : Bool
  matchPercentage : ℤ
  totalChecked : ℕ
  matchingCount : ℕ
  mismatchedCount : ℕ
  missingInCSSCount : ℕ
  extraInCSSCount : ℕ
  discrepancies : List DiscrepancyItem
deriving DecidableEq, Repr

/-- `ComparisonOptions` (all fields optional; `none` = absent). -/
structure ComparisonOptions where
  colorTolerance : Option ℚ := none
  spacingTolerance : Option ℚ := none
  checkExtraTokens : Option Bool := none
  minMatchPercentage : Option ℚ := none
deriving DecidableEq, Repr

/-! ## `design-comparator.ts`: color helpers -/

/-- `hex.replace('#', '')`: remove the first `'#'` only. -/
def removeFirstHash : List Char → List Char
  | [] => []
  | c :: rest => if c = '#' then rest else c :: removeFirstHash rest

/-- `parseInt(s, 16)`: skip leading whitespace, then the maximal run of hex
digits; `none` models NaN (no digit). -/
def parseIntHex (l : List Char) : Option ℕ :=
  let l' := l.dropWhile isJsSpace
  let isHexChar : Char → Bool := fun c =>
    c.isDigit || ('a' ≤ c && c ≤ 'f') || ('A' ≤ c && c ≤ 'F')
  let ds := l'.takeWhile isHexChar
  if ds.isEmpty then none
  else some (ds.foldl (fun acc c =>
    16 * acc + (if c.isDigit then c.toNat - '0'.toNat
      else if 'a' ≤ c ∧ c ≤ 'f' then c.toNat - 'a'.toNat + 10
      else c.toNat - 'A'.toNat + 10)) 0)

/-- Source `hexToRgb`: strip the first `#`, require exactly 6 characters,
parse the three byte substrings. -/
def hexToRgb (hex : String) : Option (ℕ × ℕ × ℕ) :=
  let cleaned := removeFirstHash hex.data
  if cleaned.length = 6 then
    match parseIntHex (cleaned.take 2),
          parseIntHex ((cleaned.drop 2).take 2),
          parseIntHex ((cleaned.drop 4).take 2) with
    | some r, some g, some b => some (r, g, b)
    | _, _, _ => none
  else none

/-- Source `calculateColorDifference`, refined to the exact squared distance
(the source's `(sqrt(d)/sqrt(3·255²))·100` determines and is determined by
`d`; unparseable inputs give the constant 100%). -/
def calculateColorDifference (hex1 hex2 : String) : ColorDiff :=
  match hexToRgb hex1, hexToRgb hex2 with
  | some (r1, g1, b1), some (r2, g2, b2) =>
      ColorDiff.distSq ((max r1 r2 - min r1 r2) ^ 2 +
        (max g1 g2 - min g1 g2) ^ 2 + (max b1 b2 - min b1 b2) ^ 2)
  | _, _ => ColorDiff.unparseable

/-- `colorDiff <= tolerance`, via the exact squared comparison
(`100·sqrt(d/195075) ≤ tol ↔ 0 ≤ tol ∧ 10000·d ≤ tol²·195075`). -/
def colorDiffLe (cd : ColorDiff) (tol : ℚ) : Bool :=
  match cd with
  | ColorDiff.unparseable => decide ((100 : ℚ) ≤ tol)
  | ColorDiff.distSq d => decide (0 ≤ tol ∧ (10000 * d : ℚ) ≤ tol ^ 2 * 195075)

/-- `colorDiff > 20` (severity threshold): `100·sqrt(d/195075) > 20 ↔ 10000·d > 400·195075`. -/
def colorDiffGt20 (cd : ColorDiff) : Bool :=
  match cd with
  | ColorDiff.unparseable => true
  | ColorDiff.distSq d => decide (10000 * d > 400 * 195075)

/-! ## `design-comparator.ts`: `findMatchingToken` -/

/-- `name.toLowerCase().replace(/[-_]/g, '')`. -/
def normTokenName (s : String) : List Char :=
  (s.data.map Char.toLower).filter (fun c => !(c = '-' || c = '_'))

/-- Last `'-'`-separated segment of a name (`name.split('-').pop()`),
lowercased; `none` when that segment is empty (JS falsy check). -/
def lastSegLower (s : String) : Option (List Char) :=
  let seg := (s.data.reverse.takeWhile (fun c => c ≠ '-')).reverse
  if seg.isEmpty then none else some (seg.map Char.toLower)

/-- Source `findMatchingToken`: direct key lookup, then case/separator
insensitive lookup, then suffix match on the last name segment; each pass
scans entries in iteration order and the first hit wins. -/
def findMatchingToken (name : String) (tokens : List (String × String)) :
    Option String :=
  match tokens.find? (fun kv => kv.1 = name) with
  | some kv => some kv.2
  | none =>
    let normalized := normTokenName name
    match tokens.find? (fun kv => normTokenName kv.1 = normalized) with
    | some kv => some kv.2
    | none =>
      match lastSegLower name with
      | some baseName =>
          (tokens.find? (fun kv =>
            endsWithChars (kv.1.data.map Char.toLower) baseName)).map (·.2)
      | none => none

/-! ## `design-comparator.ts`: per-category comparison -/

/-- Per-entry outcome of a category loop iteration. -/
inductive CmpClass where
  | matchedTok
  | mismatchedTok (d : DiscrepancyItem)
  | missingTok (d : DiscrepancyItem)
deriving DecidableEq, Repr

/-- One iteration of the `compareColors` loop for the design entry
`(name, designValue)`. -/
def classifyColor (cssColors : List (String × String)) (tolerance : ℚ)
    (entry : String × String) : CmpClass :=
  let name := entry.1
  let designValue := entry.2
  let missing := CmpClass.missingTok
    { type := TokenKind.color, tokenName := name, expectedValue := designValue,
      actualValue := "NOT_FOUND", difference := DiffInfo.tokenNotFound,
      severity := Severity.warning }
  match findMatchingToken name cssColors with
  | none => missing
  | some cssValue =>
    if cssValue = "" then missing   -- `if (!cssValue)` is a falsy check
    else
      let normalizedDesign := normalizeColorValue designValue
      let normalizedCSS := normalizeColorValue cssValue
      if normalizedDesign = normalizedCSS then CmpClass.matchedTok
      else
        let colorDiff := calculateColorDifference normalizedDesign normalizedCSS
        if colorDiffLe colorDiff tolerance then CmpClass.matchedTok
        else CmpClass.mismatchedTok
          { type := TokenKind.color, tokenName := name,
            expectedValue := designValue, actualValue := cssValue,
            difference := DiffInfo.colorDifference colorDiff,
            severity := if colorDiffGt20 colorDiff then Severity.error
              else Severity.warning }

/-- One iteration of the `compareSpacing` loop for the design entry
`(name, designValue)`. -/
def classifySpacing (cssSpacing : List (String × String)) (tolerance : ℚ)
    (ty : TokenKind) (entry : String × String) : CmpClass :=
  let name := entry.1
  let designValue := entry.2
  let missing := CmpClass.missingTok
    { type := ty, tokenName := name, expectedValue := designValue,
      actualValue := "NOT_FOUND", difference := DiffInfo.tokenNotFound,
      severity := Severity.warning }
  match findMatchingToken name cssSpacing with
  | none => missing
  | some cssValue =>
    if cssValue = "" then missing   -- `if (!cssValue)` is a falsy check
    else
      match parseSpacingValue designValue, parseSpacingValue cssValue with
      | some designPx, some cssPx =>
          let diff := JSNum.absSub designPx cssPx
          if diff.leQ tolerance then CmpClass.matchedTok
          else CmpClass.mismatchedTok
            { type := ty, tokenName := name, expectedValue := designValue,
              actualValue := cssValue,
              difference := DiffInfo.spacingDifference diff,
              severity := if diff.gtQ 8 then Severity.error
                else Severity.warning }
      | _, _ =>      -- at least one side failed to parse: string comparison
          if designValue = cssValue then CmpClass.matchedTok
          else CmpClass.mismatchedTok
            { type := ty, tokenName := name, expectedValue := designValue,
              actualValue := cssValue, difference := DiffInfo.valuesDiffer,
              severity := Severity.warning }

/-- `TokenComparisonResult`. -/
structure TokenComparisonResult where
  total : ℕ
  matching : ℕ
  mismatched : ℕ
  missing : ℕ
  discrepancies : List DiscrepancyItem
deriving DecidableEq, Repr

/-- Discrepancy produced by one loop iteration, if any. -/
def CmpClass.disc : CmpClass → Option DiscrepancyItem
  | CmpClass.matchedTok => none
  | CmpClass.mismatchedTok d => some d
  | CmpClass.missingTok d => some d

/-- Aggregate the per-entry outcomes of a category loop (the source's loop
accumulators are independent across iterations, so the totals are counts
over the entry list and the discrepancy list is their in-order collection). -/
def aggregateClasses (total : ℕ) (cls : List CmpClass) : TokenComparisonResult :=
  { total := total
    matching := cls.countP (fun c => c = CmpClass.matchedTok)
    mismatched := cls.countP (fun c => match c with
      | CmpClass.mismatchedTok _ => true | _ => false)
    missing := cls.countP (fun c => match c with
      | CmpClass.missingTok _ => true | _ => false)
    discrepancies := cls.filterMap CmpClass.disc }

/-- Source `compareColors`. -/
def compareColors (designColors cssColors : List (String × String))
    (tolerance : ℚ) : TokenComparisonResult :=
  aggregateClasses designColors.length
    (designColors.map (classifyColor cssColors tolerance))

/-- Source `compareSpacing` (also used for border radius). -/
def compareSpacing (designSpacing cssSpacing : List (String × String))
    (tolerance : ℚ) (ty : TokenKind := TokenKind.spacing) :
    TokenComparisonResult :=
  aggregateClasses designSpacing.length
    (designSpacing.map (classifySpacing cssSpacing tolerance ty))

/-! ## `design-comparator.ts`: `compareDesignTokens` -/

/-- Source `compareDesignTokens` with the `DEFAULT_OPTIONS` merge
(`{...DEFAULT_OPTIONS, ...options}`); `minMatchPercentage || 90` maps an
explicit 0 back to the default. -/
def compareDesignTokens (designTokens : DesignTokens) (cssTokens : CSSTokens)
    (options : ComparisonOptions := {}) : ComparisonResult :=
  let colorTolerance := options.colorTolerance.getD 5
  let spacingTolerance := options.spacingTolerance.getD 2
  let colorResult := compareColors designTokens.colors cssTokens.colors
    colorTolerance
  let spacingResult := compareSpacing designTokens.spacing cssTokens.spacing
    spacingTolerance
  let radiusResult := match designTokens.borderRadius with
    | some br => compareSpacing br (cssTokens.borderRadius.getD [])
        spacingTolerance TokenKind.borderRadius
    | none => { total := 0, matching := 0, mismatched := 0, missing := 0,
                discrepancies := [] }
  let totalChecked := colorResult.total + spacingResult.total +
    radiusResult.total
  let matchingCount := colorResult.matching + spacingResult.matching +
    radiusResult.matching
  let mismatchedCount := colorResult.mismatched + spacingResult.mismatched +
    radiusResult.mismatched
  let missingInCSSCount := colorResult.missing + spacingResult.missing +
    radiusResult.missing
  let discrepancies := colorResult.discrepancies ++
    spacingResult.discrepancies ++ radiusResult.discrepancies
  let matchPercentage : ℤ :=
    if totalChecked > 0 then
      jsRound ((matchingCount : ℚ) / (totalChecked : ℚ) * 100)
    else 100
  let minMatch := options.minMatchPercentage.getD 90
  let verified := (matchPercentage : ℚ) ≥ (if minMatch = 0 then 90 else minMatch)
  { verified := verified
    matchPercentage := matchPercentage
    totalChecked := totalChecked
    matchingCount := matchingCount
    mismatchedCount := mismatchedCount
    missingInCSSCount := missingInCSSCount
    extraInCSSCount := 0   -- 'Not calculated by default'
    discrepancies := discrepancies }

/-! ## `queue.ts`: task model -/

/-- Task lifecycle status. -/
inductive TaskStatus where
  | pending | in_progress | awaiting_review | completed | rejected
deriving DecidableEq, Repr

/-- Task priority. -/
inductive TaskPriority where
  | high | medium | low
deriving DecidableEq, Repr

/-- A task.  `createdAt`/`updatedAt` are modeled as numeric timestamps
(ordering of valid ISO strings coincides with the numeric order that
`new Date(s).getTime()` yields). -/
structure Task where
  id : String
  type : String := "feature_implementation"
  priority : TaskPriority
  title : String := ""
  description : String := ""
  acceptanceCriteria : Option (List String) := none
  status : TaskStatus
  createdAt : ℕ
  updatedAt : Option ℕ := none
  rejectionReason : Option String := none
deriving DecidableEq, Repr

/-- The persisted queue file. -/
structure TaskQueue where
  version : String := "1.0"
  tasks : List Task
  completed : List Task
  current : Option String
  lastUpdated : ℕ := 0
deriving DecidableEq, Repr

/-- Draft passed to `addTask` (everything but `id`, `status`, `createdAt`). -/
structure TaskDraft where
  type : String := "feature_implementation"
  priority : TaskPriority
  title : String := ""
  description : String := ""
  acceptanceCriteria : Option (List String) := none
deriving DecidableEq, Repr

/-! ## `queue.ts`: task id generation -/

/-- The decimal digit character for `d < 10`. -/
def decDigit : ℕ → Char
  | 0 => '0' | 1 => '1' | 2 => '2' | 3 => '3' | 4 => '4'
  | 5 => '5' | 6 => '6' | 7 => '7' | 8 => '8' | _ => '9'

/-- Decimal rendering with structural fuel (`n / 10` strictly decreases, so
any fuel above `n` suffices). -/
def natToDecCharsAux : ℕ → ℕ → List Char
  | 0, _ => []
  | fuel + 1, n =>
      if n < 10 then [decDigit n]
      else natToDecCharsAux fuel (n / 10) ++ [decDigit (n % 10)]

/-- Decimal rendering of a natural number (JS `String(n)`). -/
def natToDecChars (n : ℕ) : List Char := natToDecCharsAux (n + 1) n

/-- `String(n).padStart(3, '0')`. -/
def padStart3 (l : List Char) : List Char :=
  if l.length < 3 then List.replicate (3 - l.length) '0' ++ l else l

/-- The id `` `task-${String(n).padStart(3, '0')}` ``. -/
def renderTaskId (n : ℕ) : String :=
  String.mk ('t' :: 'a' :: 's' :: 'k' :: '-' :: padStart3 (natToDecChars n))

/-- The match `/^task-(\d+)$/` together with `parseInt(m[1], 10)`. -/
def parseTaskIdNum (id : String) : Option ℕ :=
  match stripLead ['t', 'a', 's', 'k', '-'] id.data with
  | some rest =>
      if !rest.isEmpty && rest.all Char.isDigit then some (digitsVal rest)
      else none
  | none => none

/-- The `maxNum` accumulation of `generateTaskId` over a task list. -/
def maxTaskNum (ts : List Task) : ℕ :=
  ts.foldl (fun m t =>
    match parseTaskIdNum t.id with
    | some n => if n > m then n else m
    | none => m) 0

/-- Source `generateTaskId`: scan `tasks ++ completed` for the highest
`task-N` suffix and render `N+1` zero-padded. -/
def generateTaskId (queue : TaskQueue) : String :=
  renderTaskId (maxTaskNum (queue.tasks ++ queue.completed) + 1)

/-! ## `queue.ts`: store operations (pure state transformers; `saveQueue`
stamps `lastUpdated`) -/

/-- `saveQueue` (the persisted-write part: stamp `lastUpdated`). -/
def saveQueue (queue : TaskQueue) (now : ℕ) : TaskQueue :=
  { queue with lastUpdated := now }

/-- Source `addTask`: generate an id, status `pending`, `createdAt` now,
append to the active list, persist.  Returns the created task. -/
def addTask (queue : TaskQueue) (draft : TaskDraft) (now : ℕ) :
    Task × TaskQueue :=
  let newTask : Task :=
    { id := generateTaskId queue
      type := draft.type
      priority := draft.priority
      title := draft.title
      description := draft.description
      acceptanceCriteria := draft.acceptanceCriteria
      status := TaskStatus.pending
      createdAt := now }
  (newTask, saveQueue { queue with tasks := queue.tasks ++ [newTask] } now)

/-- A `Partial<Task>` update: `some` fields are merged over the task
(`some none` for an optional field models an explicit `undefined`). -/
structure TaskUpdate where
  status : Option TaskStatus := none
  rejectionReason : Option (Option String) := none
deriving DecidableEq, Repr

/-- Merge an update into a task (the object spread in `updateTask`),
stamping `updatedAt`. -/
def applyTaskUpdate (t : Task) (u : TaskUpdate) (now : ℕ) : Task :=
  { t with
    status := u.status.getD t.status
    rejectionReason := u.rejectionReason.getD t.rejectionReason
    updatedAt := some now }

/-- Replace the first list element satisfying `p` by `f` applied to it
(`findIndex` + index assignment in the source); `none` when no element
matches. -/
def replaceFirst (p : Task → Bool) (f : Task → Task) :
    List Task → Option (List Task)
  | [] => none
  | t :: ts =>
      if p t then some (f t :: ts)
      else (replaceFirst p f ts).map (t :: ·)

/-- Source `updateTask`: throws `Task not found` when the id is absent from
the active list; otherwise merges the update and persists. -/
def updateTask (queue : TaskQueue) (taskId : String) (u : TaskUpdate)
    (now : ℕ) : Except String TaskQueue :=
  match replaceFirst (fun t => t.id = taskId) (fun t => applyTaskUpdate t u now)
      queue.tasks with
  | some tasks' => Except.ok (saveQueue { queue with tasks := tasks' } now)
  | none => Except.error ("Task not found: " ++ taskId)

/-- Source `updateTaskStatus`. -/
def updateTaskStatus (queue : TaskQueue) (taskId : String)
    (status : TaskStatus) (now : ℕ) : Except String TaskQueue :=
  updateTask queue taskId { status := some status } now

/-- Source `setCurrentTask` (unconditional pointer write). -/
def setCurrentTask (queue : TaskQueue) (taskId : Option String) (now : ℕ) :
    TaskQueue :=
  saveQueue { queue with current := taskId } now

/-- Split the active list at the first task with the given id
(`findIndex` + `splice`). -/
def extractFirst (taskId : String) :
    List Task → Option (Task × List Task)
  | [] => none
  | t :: ts =>
      if t.id = taskId then some (t, ts)
      else (extractFirst taskId ts).map (fun (x, rest) => (x, t :: rest))

/-- Source `completeTask`: move the task to the completed list with status
`completed`, clear `current` if it pointed at it; throws when absent. -/
def completeTask (queue : TaskQueue) (taskId : String) (now : ℕ) :
    Except String TaskQueue :=
  match extractFirst taskId queue.tasks with
  | some (t, tasks') =>
      let task := { t with status := TaskStatus.completed, updatedAt := some now }
      Except.ok (saveQueue
        { queue with
          tasks := tasks'
          completed := queue.completed ++ [task]
          current := if queue.current = some taskId then none
            else queue.current } now)
  | none => Except.error ("Task not found: " ++ taskId)

/-- Source `rejectTask`: status `rejected` plus the reason. -/
def rejectTask (queue : TaskQueue) (taskId : String) (reason : String)
    (now : ℕ) : Except String TaskQueue :=
  updateTask queue taskId
    { status := some TaskStatus.rejected, rejectionReason := some (some reason) }
    now

/-! ## `queue.ts`: queries -/

/-- Source `getPendingTasks`. -/
def getPendingTasks (queue : TaskQueue) : List Task :=
  queue.tasks.filter (fun t => t.status = TaskStatus.pending)

/-- `priorityOrder` table. -/
def priorityOrder : TaskPriority → ℕ
  | TaskPriority.high => 3
  | TaskPriority.medium => 2
  | TaskPriority.low => 1

/-- `comparator(a, b) ≤ 0` for the sort in `getNextPendingTask`: descending
priority, then ascending creation time. -/
def taskBefore (a b : Task) : Bool :=
  priorityOrder b.priority < priorityOrder a.priority
  || (priorityOrder a.priority = priorityOrder b.priority
      && a.createdAt ≤ b.createdAt)

/-- Source `getNextPendingTask`: stable sort of the pending tasks by the
comparator, first element (`undefined`/`none` when there is none). -/
def getNextPendingTask (queue : TaskQueue) : Option Task :=
  (List.mergeSort (getPendingTasks queue) taskBefore).head?

/-! ## Sequences of store operations (for id-generation claims) -/

/-- A store operation in an `add`/`complete` interleaving. -/
inductive QueueOp where
  | add (draft : TaskDraft) (now : ℕ)
  | complete (taskId : String) (now : ℕ)

/-- Run a sequence of operations, collecting the generated task ids in
order.  A `complete` on an absent id throws in the source before any write,
so it leaves the persisted queue unchanged. -/
def runOps (queue : TaskQueue) : List QueueOp → TaskQueue × List String
  | [] => (queue, [])
  | QueueOp.add draft now :: rest =>
      let (t, q') := addTask queue draft now
      let (qf, ids) := runOps q' rest
      (qf, t.id :: ids)
  | QueueOp.complete taskId now :: rest =>
      match completeTask queue taskId now with
      | Except.ok q' => runOps q' rest
      | Except.error _ => runOps queue rest

/-- All task ids persisted in the store (active and completed). -/
def taskIds (queue : TaskQueue) : List String :=
  (queue.tasks ++ queue.completed).map Task.id

/-! ## `agent.ts`: messages and mailboxes -/

/-- Pipeline message (tagged union of the five message kinds; each variant
carries the payload fields the controller inspects). -/
inductive PipelineMessage where
  | planningDocument (taskId : String)
  | designSpecification (taskId : String) (designTokens : DesignTokens)
  | taskAssignment (taskId : String)
  | completionReport (taskId : String) (buildStatus : String)
  | designVerification (taskId : String)
deriving DecidableEq, Repr

/-- `message.taskId`. -/
def PipelineMessage.taskId : PipelineMessage → String
  | PipelineMessage.planningDocument t => t
  | PipelineMessage.designSpecification t _ => t
  | PipelineMessage.taskAssignment t => t
  | PipelineMessage.completionReport t _ => t
  | PipelineMessage.designVerification t => t

/-- `message.type === 'planning_document'`. -/
def PipelineMessage.isPlanningDocument : PipelineMessage → Bool
  | PipelineMessage.planningDocument _ => true
  | _ => false

/-- `message.type === 'design_specification'`. -/
def PipelineMessage.isDesignSpecification : PipelineMessage → Bool
  | PipelineMessage.designSpecification _ _ => true
  | _ => false

/-- `message.type === 'task_assignment'`. -/
def PipelineMessage.isTaskAssignment : PipelineMessage → Bool
  | PipelineMessage.taskAssignment _ => true
  | _ => false

/-- `message.type === 'completion_report'`. -/
def PipelineMessage.isCompletionReport : PipelineMessage → Bool
  | PipelineMessage.completionReport _ _ => true
  | _ => false

/-- `report.buildResult.status` (only read on completion reports). -/
def PipelineMessage.buildStatus : PipelineMessage → String
  | PipelineMessage.completionReport _ b => b
  | _ => ""

/-- `designSpec.designTokens` (only read on design specifications). -/
def PipelineMessage.specTokens : PipelineMessage → DesignTokens
  | PipelineMessage.designSpecification _ tk => tk
  | _ => { colors := [], spacing := [] }

/-- A mailbox file (`MessageFile`). -/
structure MessageFile where
  messages : List PipelineMessage
  lastRead : Option ℕ
deriving DecidableEq, Repr

/-- The four mailboxes (`MessageTarget`). -/
inductive MessageTarget where
  | toDesigner | toTechLead | toDeveloper | toTeamLead
deriving DecidableEq, Repr

/-- Result of one external agent invocation. -/
structure AgentResult where
  success : Bool
  output : String := ""
  error : Option String := none
  exitCode : ℤ := 0
deriving DecidableEq, Repr

/-- The persisted record written by `createVerificationMessage`. -/
structure VerificationRecord where
  taskId : String
  verified : Bool
  matchPercentage : ℤ
  totalChecked : ℕ
  discrepancies : List DiscrepancyItem
deriving DecidableEq, Repr

/-- Orchestrator-visible world state threaded through the pipeline:
the queue file, the four mailbox files, the saved design-token and
verification-report files, an instrumentation counter for review-phase
agent invocations, a clock for timestamps, and the trace of every persisted
queue snapshot (one entry per `saveQueue` write).  Status-file updates and
development-log appends have no control-flow effect and are not modeled. -/
structure World where
  queue : TaskQueue
  toDesigner : MessageFile
  toTechLead : MessageFile
  toDeveloper : MessageFile
  toTeamLead : MessageFile
  designTokensFile : Option DesignTokens := none
  verificationReportFile : Option VerificationRecord := none
  reviewInvocations : ℕ := 0
  clock : ℕ := 0
  queueTrace : List TaskQueue := []

/-- Read a mailbox. -/
def getMailbox (w : World) : MessageTarget → MessageFile
  | MessageTarget.toDesigner => w.toDesigner
  | MessageTarget.toTechLead => w.toTechLead
  | MessageTarget.toDeveloper => w.toDeveloper
  | MessageTarget.toTeamLead => w.toTeamLead

/-- Overwrite a mailbox (`writeJSON`). -/
def setMailbox (w : World) (target : MessageTarget) (mf : MessageFile) :
    World :=
  match target with
  | MessageTarget.toDesigner => { w with toDesigner := mf }
  | MessageTarget.toTechLead => { w with toTechLead := mf }
  | MessageTarget.toDeveloper => { w with toDeveloper := mf }
  | MessageTarget.toTeamLead => { w with toTeamLead := mf }

/-- Source `clearMessages`: reset to the empty list, stamp `lastRead`. -/
def clearMessages (w : World) (target : MessageTarget) : World :=
  { setMailbox w target { messages := [], lastRead := some w.clock } with
    clock := w.clock + 1 }

/-- Source `readMessages`. -/
def readMessages (w : World) (target : MessageTarget) : MessageFile :=
  getMailbox w target

/-! ## `agent.ts`: the pipeline environment (external collaborators) -/

/-- Behavior of one external writer-agent invocation: the process result
and the message list the agent leaves in its target mailbox (the mailbox is
always cleared immediately before the invocation, and the agent is
instructed to write the file with exactly its own messages). -/
structure AgentBehavior where
  result : AgentResult
  writes : List PipelineMessage := []

/-- External collaborators of one `processTaskV2` run: the five agent
invocations and the CSS token extraction (which may throw). -/
structure PipelineEnv where
  planner : AgentBehavior
  designer : AgentBehavior
  techLead : AgentBehavior
  developer : AgentBehavior
  review : AgentResult
  extraction : Except String CSSTokens

/-- Invoke a writer agent against its target mailbox. -/
def invokeWriter (w : World) (target : MessageTarget) (b : AgentBehavior) :
    AgentResult × World :=
  (b.result, setMailbox w target { messages := b.writes, lastRead := none })

/-- Invoke the review agent (instrumented: counts review-phase invocations;
the review agent writes no mailbox). -/
def invokeReview (w : World) (r : AgentResult) : AgentResult × World :=
  (r, { w with reviewInvocations := w.reviewInvocations + 1 })

/-! ## `agent.ts`: world-level queue writes (each `saveQueue` snapshots the
persisted state into `queueTrace`; a thrown store operation performs no
write) -/

/-- Record a persisted queue state. -/
def wPutQueue (w : World) (q : TaskQueue) : World :=
  { w with queue := q, queueTrace := w.queueTrace ++ [q], clock := w.clock + 1 }

/-- `setCurrentTask` at world level. -/
def wSetCurrentTask (w : World) (taskId : Option String) : World :=
  wPutQueue w (setCurrentTask w.queue taskId w.clock)

/-- `updateTaskStatus` at world level. -/
def wUpdateTaskStatus (w : World) (taskId : String) (st : TaskStatus) :
    Except String World :=
  match updateTaskStatus w.queue taskId st w.clock with
  | Except.ok q => Except.ok (wPutQueue w q)
  | Except.error e => Except.error e

/-- `rejectTask` at world level. -/
def wRejectTask (w : World) (taskId : String) (reason : String) :
    Except String World :=
  match rejectTask w.queue taskId reason w.clock with
  | Except.ok q => Except.ok (wPutQueue w q)
  | Except.error e => Except.error e

/-- `completeTask` at world level. -/
def wCompleteTask (w : World) (taskId : String) : Except String World :=
  match completeTask w.queue taskId w.clock with
  | Except.ok q => Except.ok (wPutQueue w q)
  | Except.error e => Except.error e

/-! ## `agent.ts`: review output parsing -/

/-- Is `pat` a contiguous subsequence of `l`? (JS `String.includes`.) -/
def containsSeq (l pat : List Char) : Bool :=
  l.tails.any (fun t => (stripLead pat t).isSome)

/-- Strip a literal sequence case-insensitively. -/
def stripLeadCI : List Char → List Char → Option (List Char)
  | [], l => some l
  | _ :: _, [] => none
  | p :: ps, c :: cs => if c.toLower = p then stripLeadCI ps cs else none

/-- The `\s*(.+)` part of `/REJECT:\s*(.+)/i` at a fixed start: greedy
whitespace skip, then a nonempty capture of non-newline characters, with
regex backtracking into the whitespace run when everything after the marker
is whitespace. -/
def wsCapture (rest : List Char) : Option (List Char) :=
  let ws := rest.takeWhile isJsSpace
  if ws.length < rest.length then
    some ((rest.drop ws.length).takeWhile (fun c => c ≠ '\n'))
  else
    match ws.reverse.dropWhile (fun c => c = '\n') with
    | [] => none
    | c :: _ => some [c]

/-- Leftmost match of `/REJECT:\s*(.+)/i`, returning the capture. -/
def findRejectReason : List Char → Option (List Char)
  | [] => none
  | c :: rest =>
    match (stripLeadCI ['r', 'e', 'j', 'e', 'c', 't', ':'] (c :: rest)).bind
        wsCapture with
    | some cap => some cap
    | none => findRejectReason rest

/-- The rejection-reason extraction in `runReview`: first
`/REJECT:\s*(.+)/i` capture trimmed, else `'Review failed'`. -/
def parseRejectReason (output : String) : String :=
  match findRejectReason output.data with
  | some cap => String.mk (jsTrim cap)
  | none => "Review failed"

/-- JS `maybeString || default` (undefined and the empty string are falsy). -/
def jsOrStr (o : Option String) (d : String) : String :=
  match o with
  | some s => if s = "" then d else s
  | none => d

/-! ## `agent.ts`: `runReview` and the pipeline phases -/

/-- Outcome of `runReview`. -/
structure ReviewOutcome where
  approved : Bool
  reason : Option String := none
deriving DecidableEq, Repr

/-- Source `runReview`: find the completion report for the task in the
`toTeamLead` mailbox; missing report fails without invoking the agent;
a `failed` build auto-rejects without invoking the agent; otherwise the
review agent is invoked and its output parsed for an approval token. -/
def runReview (env : PipelineEnv) (task : Task) (w : World) :
    ReviewOutcome × World :=
  let messages := readMessages w MessageTarget.toTeamLead
  match messages.messages.find? (fun m =>
      m.isCompletionReport && m.taskId = task.id) with
  | none => ({ approved := false, reason := some "No completion report found" }, w)
  | some report =>
    if report.buildStatus = "failed" then
      ({ approved := false, reason := some "Build verification failed" }, w)
    else
      let (result, w) := invokeReview w env.review
      let outputLower := result.output.data.map Char.toLower
      if containsSeq outputLower ['a', 'p', 'p', 'r', 'o', 'v', 'e'] then
        ({ approved := true }, w)
      else
        ({ approved := false, reason := some (parseRejectReason result.output) }, w)

/-- Source `runPlanner`: clear `toDesigner`, invoke the planner. -/
def runPlanner (env : PipelineEnv) (w : World) : AgentResult × World :=
  invokeWriter (clearMessages w MessageTarget.toDesigner)
    MessageTarget.toDesigner env.planner

/-- Source `runDesigner`: clear `toTechLead`, invoke the designer. -/
def runDesigner (env : PipelineEnv) (w : World) : AgentResult × World :=
  invokeWriter (clearMessages w MessageTarget.toTechLead)
    MessageTarget.toTechLead env.designer

/-- Source `runTechLead`: clear `toDeveloper`, invoke the tech lead. -/
def runTechLead (env : PipelineEnv) (w : World) : AgentResult × World :=
  invokeWriter (clearMessages w MessageTarget.toDeveloper)
    MessageTarget.toDeveloper env.techLead

/-- Source `runDeveloper`: read the task assignment from `toDeveloper`
(failing without invocation when absent), clear `toTeamLead`, invoke the
developer. -/
def runDeveloper (env : PipelineEnv) (task : Task) (w : World) :
    AgentResult × World :=
  let messages := readMessages w MessageTarget.toDeveloper
  match messages.messages.find? (fun m =>
      m.isTaskAssignment && m.taskId = task.id) with
  | none =>
      ({ success := false, output := "",
         error := some "No instructions found from Team Lead",
         exitCode := -1 }, w)
  | some _ =>
      invokeWriter (clearMessages w MessageTarget.toTeamLead)
        MessageTarget.toTeamLead env.developer

/-- Outcome of `runDesignVerification`. -/
structure VerificationOutcome where
  verified : Bool
  matchPercentage : ℤ
  discrepancies : List DiscrepancyItem
deriving DecidableEq, Repr

/-- Source `runDesignVerification`: extract CSS tokens (an extraction error
is swallowed and reported as `verified := true, 0% match, no
discrepancies`), compare against the design tokens with
`minMatchPercentage := 90`, persist the verification report. -/
def runDesignVerification (env : PipelineEnv) (task : Task)
    (designTokens : DesignTokens) (w : World) : VerificationOutcome × World :=
  match env.extraction with
  | Except.error _ =>
      ({ verified := true, matchPercentage := 0, discrepancies := [] }, w)
  | Except.ok cssTokens =>
      let result := compareDesignTokens designTokens cssTokens
        { minMatchPercentage := some 90 }
      let record : VerificationRecord :=
        { taskId := task.id, verified := result.verified,
          matchPercentage := result.matchPercentage,
          totalChecked := result.totalChecked,
          discrepancies := result.discrepancies }
      let w := { w with verificationReportFile := some record }
      ({ verified := result.verified, matchPercentage := result.matchPercentage,
         discrepancies := result.discrepancies }, w)

/-! ## `agent.ts`: `processTaskV2` -/

/-- Pipeline phase names for failure reporting. -/
inductive PipePhase where
  | planner | designer | tech_lead | developer | review | verification
deriving DecidableEq, Repr

/-- `ProcessTaskResultV2`. -/
structure ProcessTaskResultV2 where
  success : Bool
  error : Option String := none
  phase : Option PipePhase := none
  designVerification : Option VerificationOutcome := none
deriving DecidableEq, Repr

/-- The `try` body of `processTaskV2`: phases 1–6 with early returns;
`Except.error` models a thrown store error reaching the `catch`. -/
def processTaskV2Body (env : PipelineEnv) (task : Task) (w : World) :
    Except String ProcessTaskResultV2 × World :=
  let failRes : PipePhase → String → ProcessTaskResultV2 := fun ph e =>
    { success := false, error := some e, phase := some ph }
  let w := wSetCurrentTask w (some task.id)
  match wUpdateTaskStatus w task.id TaskStatus.in_progress with
  | Except.error e => (Except.error e, w)
  | Except.ok w =>
  -- Phase 1: Planner
  let (plannerResult, w) := runPlanner env w
  if !plannerResult.success then
    (Except.ok (failRes PipePhase.planner (jsOrStr plannerResult.error
      "Planner failed to create planning document")), w)
  else
  match (readMessages w MessageTarget.toDesigner).messages.find? (fun m =>
      m.isPlanningDocument && m.taskId = task.id) with
  | none =>
      (Except.ok (failRes PipePhase.planner
        "Planner did not create planning document"), w)
  | some _planningDoc =>
  -- Phase 2: Designer
  let (designerResult, w) := runDesigner env w
  if !designerResult.success then
    (Except.ok (failRes PipePhase.designer (jsOrStr designerResult.error
      "Designer failed to create design specification")), w)
  else
  match (readMessages w MessageTarget.toTechLead).messages.find? (fun m =>
      m.isDesignSpecification && m.taskId = task.id) with
  | none =>
      (Except.ok (failRes PipePhase.designer
        "Designer did not create design specification"), w)
  | some designSpec =>
  -- Save design tokens for later verification
  let w := { w with designTokensFile := some designSpec.specTokens }
  -- Phase 3: Tech Lead
  let (techLeadResult, w) := runTechLead env w
  if !techLeadResult.success then
    (Except.ok (failRes PipePhase.tech_lead (jsOrStr techLeadResult.error
      "Tech Lead failed to create instructions")), w)
  else
  -- Phase 4: Developer
  let (developerResult, w) := runDeveloper env task w
  if !developerResult.success then
    (Except.ok (failRes PipePhase.developer (jsOrStr developerResult.error
      "Developer failed to implement task")), w)
  else
  match wUpdateTaskStatus w task.id TaskStatus.awaiting_review with
  | Except.error e => (Except.error e, w)
  | Except.ok w =>
  -- Phase 5: Tech Lead Review
  let (reviewResult, w) := runReview env task w
  if !reviewResult.approved then
    match wRejectTask w task.id (jsOrStr reviewResult.reason "Review failed") with
    | Except.error e => (Except.error e, w)
    | Except.ok w =>
        (Except.ok (failRes PipePhase.review
          (jsOrStr reviewResult.reason "Review failed")), w)
  else
  -- Phase 6: Design Verification (warning only, does not block)
  let (verificationResult, w) :=
    runDesignVerification env task designSpec.specTokens w
  match wCompleteTask w task.id with
  | Except.error e => (Except.error e, w)
  | Except.ok w =>
      (Except.ok { success := true,
                   designVerification := some verificationResult }, w)

/-- Source `processTaskV2`: the body under `try`, the `catch` converting a
thrown error into a failure result (`String(error)` prefixes `Error: `),
and the unconditional `finally` releasing the current-task pointer and
clearing all four mailboxes. -/
def processTaskV2 (env : PipelineEnv) (task : Task) (w0 : World) :
    ProcessTaskResultV2 × World :=
  let (r, w) := processTaskV2Body env task w0
  let result := match r with
    | Except.ok res => res
    | Except.error e => { success := false, error := some ("Error: " ++ e) }
  let w := wSetCurrentTask w none
  let w := clearMessages w MessageTarget.toDesigner
  let w := clearMessages w MessageTarget.toTechLead
  let w := clearMessages w MessageTarget.toDeveloper
  let w := clearMessages w MessageTarget.toTeamLead
  (result, w)

/-! ## Concrete fixtures (used by counterexamples and witnesses) -/

/-- A pending high-priority task. -/
def sampleTask : Task :=
  { id := "task-001", priority := TaskPriority.high,
    status := TaskStatus.pending, createdAt := 0 }

/-- An initial world: `sampleTask` queued, no current task, empty mailboxes. -/
def sampleWorld : World :=
  { queue := { tasks := [sampleTask], completed := [], current := none }
    toDesigner := { messages := [], lastRead := none }
    toTechLead := { messages := [], lastRead := none }
    toDeveloper := { messages := [], lastRead := none }
    toTeamLead := { messages := [], lastRead := none } }

/-- A writer agent that succeeds and leaves the given messages. -/
def okAgent (writes : List PipelineMessage) : AgentBehavior :=
  { result := { success := true }, writes := writes }

/-- All phases succeed; the developer reports a failed build. -/
def envBuildFail : PipelineEnv :=
  { planner := okAgent [PipelineMessage.planningDocument "task-001"]
    designer := okAgent [PipelineMessage.designSpecification "task-001"
      { colors := [], spacing := [] }]
    techLead := okAgent [PipelineMessage.taskAssignment "task-001"]
    developer := okAgent [PipelineMessage.completionReport "task-001" "failed"]
    review := { success := true, output := "APPROVE: fine" }
    extraction := Except.error "extraction error" }

/-- All phases succeed, the build succeeds, the review approves, and the
token extraction throws. -/
def envApproved : PipelineEnv :=
  { envBuildFail with
    developer := okAgent [PipelineMessage.completionReport "task-001" "success"] }

/-- The planner invocation fails immediately. -/
def envPlannerFail : PipelineEnv :=
  { envBuildFail with
    planner := { result := { success := false, error := some "planner died" } } }

/-! # Claim theorems -/

/-- C10: for every pair of token sets and every options value — including
`checkExtraTokens` set to `true` — `compareDesignTokens` returns a result
whose `extraInCSSCount` field equals 0, and the `checkExtraTokens` option
has no effect on any field of the result. -/
theorem compare_extraInCSS_zero_checkExtra_noop
    (d : DesignTokens) (c : CSSTokens) (opts : ComparisonOptions) :
    (compareDesignTokens d c opts).extraInCSSCount = 0 ∧
    ∀ b : Option Bool,
      compareDesignTokens d c { opts with checkExtraTokens := b } =
        compareDesignTokens d c opts :=
  ⟨rfl, fun _ => rfl⟩

/-- C5 (counterexample): the non-empty token set `{a ↦ ""}` compared against
itself yields 0% match and a discrepancy, because the looked-up empty-string
value fails the source's falsy check and is counted as missing — refuting
"`compare(X, X)` yields 100 and no discrepancies for every non-empty X". -/
theorem compare_self_empty_value_not_100 :
    (compareDesignTokens { colors := [("a", "")], spacing := [] }
      { colors := [("a", "")], spacing := [] } {}).matchPercentage = 0 ∧
    (compareDesignTokens { colors := [("a", "")], spacing := [] }
      { colors := [("a", "")], spacing := [] } {}).discrepancies ≠ [] := by
  constructor
  · with_unfolding_all rfl
  · intro h
    exact absurd (congrArg List.length h) (by with_unfolding_all decide)

/-! ## Self-comparison helper lemmas -/

/-- With duplicate-free keys, the first binding found for a present key is
that key's binding. -/
theorem find_key_self {l : List (String × String)}
    (hnd : (l.map Prod.fst).Nodup) {n v : String} (hmem : (n, v) ∈ l) :
    l.find? (fun kv => kv.1 = n) = some (n, v) := by
  induction l with
  | nil => cases hmem
  | cons hd tl ih =>
    rw [List.map_cons, List.nodup_cons] at hnd
    rcases List.mem_cons.mp hmem with heq | hmemtl
    · subst heq
      simp [List.find?]
    · have hne : hd.1 ≠ n := by
        intro h
        exact hnd.1 (h ▸ (List.mem_map.mpr ⟨(n, v), hmemtl, rfl⟩))
      rw [List.find?_cons_of_neg _ (by simp [hne])]
      exact ih hnd.2 hmemtl

/-- Direct lookup short-circuits `findMatchingToken`. -/
theorem findMatchingToken_self {l : List (String × String)}
    (hnd : (l.map Prod.fst).Nodup) {n v : String} (hmem : (n, v) ∈ l) :
    findMatchingToken n l = some v := by
  unfold findMatchingToken
  rw [find_key_self hnd hmem]

/-- A color token with a nonempty value always matches itself. -/
theorem classifyColor_self {l : List (String × String)} (tol : ℚ)
    (hnd : (l.map Prod.fst).Nodup) {p : String × String} (hm : p ∈ l)
    (hv : p.2 ≠ "") : classifyColor l tol p = CmpClass.matchedTok := by
  obtain ⟨n, v⟩ := p
  dsimp only at hv
  unfold classifyColor
  dsimp only
  rw [findMatchingToken_self hnd hm]
  dsimp only
  rw [if_neg hv, if_pos rfl]

/-- A spacing token with a nonempty, non-NaN value always matches itself
(at a nonnegative tolerance). -/
theorem classifySpacing_self {l : List (String × String)} {tol : ℚ}
    (ty : TokenKind) (hnd : (l.map Prod.fst).Nodup) (htol : 0 ≤ tol)
    {p : String × String} (hm : p ∈ l) (hv : p.2 ≠ "")
    (hnan : parseSpacingValue p.2 ≠ some JSNum.nan) :
    classifySpacing l tol ty p = CmpClass.matchedTok := by
  obtain ⟨n, v⟩ := p
  dsimp only at hv hnan
  unfold classifySpacing
  dsimp only
  rw [findMatchingToken_self hnd hm]
  dsimp only
  rw [if_neg hv]
  match hp : parseSpacingValue v with
  | none => simp [hp]
  | some JSNum.nan => exact absurd hp hnan
  | some (JSNum.num q) =>
    have habs : (JSNum.num q).absSub (JSNum.num q) = JSNum.num 0 := by
      simp [JSNum.absSub]
    dsimp only
    rw [habs]
    simp [JSNum.leQ, htol]

/-- Aggregating a loop whose iterations all matched. -/
theorem aggregate_all_matched (n : ℕ) (cls : List CmpClass)
    (h : ∀ c ∈ cls, c = CmpClass.matchedTok) :
    aggregateClasses n cls =
      { total := n, matching := cls.length, mismatched := 0, missing := 0,
        discrepancies := [] } := by
  unfold aggregateClasses
  congr 1
  · rw [List.countP_eq_length]
    intro c hc
    simp [h c hc]
  · rw [List.countP_eq_zero]
    intro c hc
    simp [h c hc]
  · rw [List.countP_eq_zero]
    intro c hc
    simp [h c hc]
  · rw [List.filterMap_eq_nil_iff]
    intro c hc
    simp [h c hc, CmpClass.disc]

/-- C5 (amended): `compare(X, X)` yields 100% and no discrepancies for every
non-empty token set X with duplicate-free keys whose values are nonempty
strings and whose spacing/border-radius values do not parse to NaN. -/
theorem compare_self_full_match
    (X : DesignTokens) (css : CSSTokens)
    (hcc : css.colors = X.colors) (hss : css.spacing = X.spacing)
    (hbb : css.borderRadius = X.borderRadius)
    (hndC : (X.colors.map Prod.fst).Nodup)
    (hndS : (X.spacing.map Prod.fst).Nodup)
    (hndB : ((X.borderRadius.getD []).map Prod.fst).Nodup)
    (hvC : ∀ p ∈ X.colors, p.2 ≠ "")
    (hvS : ∀ p ∈ X.spacing, p.2 ≠ "" ∧ parseSpacingValue p.2 ≠ some JSNum.nan)
    (hvB : ∀ p ∈ X.borderRadius.getD [],
      p.2 ≠ "" ∧ parseSpacingValue p.2 ≠ some JSNum.nan)
    (hne : 0 < X.colors.length + X.spacing.length +
      (X.borderRadius.getD []).length) :
    (compareDesignTokens X css {}).matchPercentage = 100 ∧
    (compareDesignTokens X css {}).discrepancies = [] := by
  have hC : compareColors X.colors css.colors 5 =
      ⟨X.colors.length, X.colors.length, 0, 0, []⟩ := by
    rw [hcc]
    unfold compareColors
    rw [aggregate_all_matched _ _ (fun c hc => by
      obtain ⟨p, hp, rfl⟩ := List.mem_map.mp hc
      exact classifyColor_self 5 hndC hp (hvC p hp))]
    simp
  have hS : compareSpacing X.spacing css.spacing 2 TokenKind.spacing =
      ⟨X.spacing.length, X.spacing.length, 0, 0, []⟩ := by
    rw [hss]
    unfold compareSpacing
    rw [aggregate_all_matched _ _ (fun c hc => by
      obtain ⟨p, hp, rfl⟩ := List.mem_map.mp hc
      exact classifySpacing_self TokenKind.spacing hndS (by norm_num) hp
        (hvS p hp).1 (hvS p hp).2)]
    simp
  have hB : ∀ br, X.borderRadius = some br →
      compareSpacing br (css.borderRadius.getD []) 2 TokenKind.borderRadius =
        ⟨br.length, br.length, 0, 0, []⟩ := by
    intro br hbr
    rw [hbb, hbr]
    simp only [Option.getD_some]
    rw [hbr] at hndB hvB
    simp only [Option.getD_some] at hndB hvB
    unfold compareSpacing
    rw [aggregate_all_matched _ _ (fun c hc => by
      obtain ⟨p, hp, rfl⟩ := List.mem_map.mp hc
      exact classifySpacing_self TokenKind.borderRadius hndB (by norm_num) hp
        (hvB p hp).1 (hvB p hp).2)]
    simp
  have key : ∀ (t : ℕ), 0 < t →
      jsRound ((t : ℚ) / (t : ℚ) * 100) = 100 := by
    intro t ht
    rw [div_self (by exact_mod_cast ht.ne' : (t : ℚ) ≠ 0)]
    norm_num [jsRound]
  unfold compareDesignTokens
  rcases hX : X.borderRadius with _ | br
  · rw [hX] at hne
    simp only [Option.getD_none, List.length_nil, Nat.add_zero] at hne
    simp only [hX, Option.getD_none]
    rw [hC, hS]
    dsimp only
    rw [if_pos (by omega)]
    exact ⟨key _ (by omega), by simp⟩
  · rw [hX] at hne
    simp only [Option.getD_some] at hne
    simp only [hX, Option.getD_none]
    rw [hC, hS, hB br hX]
    dsimp only
    rw [if_pos (by omega)]
    exact ⟨key _ (by omega), by simp⟩

/-- Witness for `compare_self_full_match` at a concrete token set. -/
theorem compare_self_full_match_witness :
    (compareDesignTokens
        { colors := [("primary", "#FF0000")], spacing := [("gap", "8px")] }
        { colors := [("primary", "#FF0000")], spacing := [("gap", "8px")] }
        {}).matchPercentage = 100 ∧
    (compareDesignTokens
        { colors := [("primary", "#FF0000")], spacing := [("gap", "8px")] }
        { colors := [("primary", "#FF0000")], spacing := [("gap", "8px")] }
        {}).discrepancies = [] :=
  compare_self_full_match
    { colors := [("primary", "#FF0000")], spacing := [("gap", "8px")] }
    { colors := [("primary", "#FF0000")], spacing := [("gap", "8px")] }
    rfl rfl rfl (by decide) (by decide) (by decide) (by decide)
    (by with_unfolding_all decide) (by decide) (by decide)

/-! ## Iteration-order lemmas for the comparator -/

/-- First-binding lookup is invariant under permutation of a
duplicate-free-keyed association list. -/
theorem find_key_perm {e₁ e₂ : List (String × String)} (hp : e₁.Perm e₂)
    (hnd : (e₁.map Prod.fst).Nodup) (n : String) :
    e₁.find? (fun kv => kv.1 = n) = e₂.find? (fun kv => kv.1 = n) := by
  by_cases hex : ∃ v, (n, v) ∈ e₁
  · obtain ⟨v, hv⟩ := hex
    rw [find_key_self hnd hv,
      find_key_self ((hp.map Prod.fst).nodup_iff.mp hnd) (hp.mem_iff.mp hv)]
  · rw [List.find?_eq_none.mpr, List.find?_eq_none.mpr]
    · intro p hm
      simp only [decide_eq_true_eq]
      intro h1
      have hpair : (n, p.2) = p := by rw [← h1]
      exact hex ⟨p.2, hp.mem_iff.mpr (hpair ▸ hm)⟩
    · intro p hm
      simp only [decide_eq_true_eq]
      intro h1
      have hpair : (n, p.2) = p := by rw [← h1]
      exact hex ⟨p.2, hpair ▸ hm⟩

/-- When the looked-up name is a key of the extracted map, the fuzzy lookup
short-circuits at the direct pass, which is order-independent. -/
theorem findMatchingToken_perm {e₁ e₂ : List (String × String)}
    (hp : e₁.Perm e₂) (hnd : (e₁.map Prod.fst).Nodup) {n : String}
    (hk : n ∈ e₁.map Prod.fst) :
    findMatchingToken n e₁ = findMatchingToken n e₂ := by
  obtain ⟨p, hpm, hp1⟩ := List.mem_map.mp hk
  have hv : (n, p.2) ∈ e₁ := by rwa [← hp1, Prod.mk.eta]
  unfold findMatchingToken
  rw [find_key_self hnd hv,
    find_key_self ((hp.map Prod.fst).nodup_iff.mp hnd) (hp.mem_iff.mp hv)]

/-- Per-entry color classification under extracted-map permutation. -/
theorem classifyColor_perm {e₁ e₂ : List (String × String)} (hp : e₁.Perm e₂)
    (hnd : (e₁.map Prod.fst).Nodup) (tol : ℚ) {p : String × String}
    (hk : p.1 ∈ e₁.map Prod.fst) :
    classifyColor e₁ tol p = classifyColor e₂ tol p := by
  obtain ⟨n, v⟩ := p
  unfold classifyColor
  dsimp only
  rw [findMatchingToken_perm hp hnd hk]

/-- Per-entry spacing classification under extracted-map permutation. -/
theorem classifySpacing_perm {e₁ e₂ : List (String × String)}
    (hp : e₁.Perm e₂) (hnd : (e₁.map Prod.fst).Nodup) (tol : ℚ)
    (ty : TokenKind) {p : String × String} (hk : p.1 ∈ e₁.map Prod.fst) :
    classifySpacing e₁ tol ty p = classifySpacing e₂ tol ty p := by
  obtain ⟨n, v⟩ := p
  unfold classifySpacing
  dsimp only
  rw [findMatchingToken_perm hp hnd hk]

/-- Aggregated category results under permutation of the design entries:
counts agree, discrepancies are a permutation. -/
theorem aggregate_map_perm {l₁ l₂ : List (String × String)} (h : l₁.Perm l₂)
    (f : String × String → CmpClass) :
    (aggregateClasses l₁.length (l₁.map f)).total =
      (aggregateClasses l₂.length (l₂.map f)).total ∧
    (aggregateClasses l₁.length (l₁.map f)).matching =
      (aggregateClasses l₂.length (l₂.map f)).matching ∧
    (aggregateClasses l₁.length (l₁.map f)).mismatched =
      (aggregateClasses l₂.length (l₂.map f)).mismatched ∧
    (aggregateClasses l₁.length (l₁.map f)).missing =
      (aggregateClasses l₂.length (l₂.map f)).missing ∧
    (aggregateClasses l₁.length (l₁.map f)).discrepancies.Perm
      (aggregateClasses l₂.length (l₂.map f)).discrepancies := by
  have hm : (l₁.map f).Perm (l₂.map f) := h.map f
  exact ⟨h.length_eq, hm.countP_eq _, hm.countP_eq _, hm.countP_eq _,
    hm.filterMap _⟩

/-- C4 (counterexample): `compareDesignTokens` is NOT iteration-order
independent.  With expected token `a_b`, the extracted maps
`{a-b ↦ #000000, ab ↦ #FFFFFF}` and its permutation with the two keys
swapped resolve the case/separator-insensitive lookup to different entries,
yielding 100% vs 0% match. -/
theorem compare_order_dependent_cex :
    ([(("a-b" : String), ("#000000" : String)), ("ab", "#FFFFFF")]).Perm
      [("ab", "#FFFFFF"), ("a-b", "#000000")] ∧
    (compareDesignTokens { colors := [("a_b", "#000000")], spacing := [] }
      { colors := [("a-b", "#000000"), ("ab", "#FFFFFF")], spacing := [] }
      {}).matchPercentage = 100 ∧
    (compareDesignTokens { colors := [("a_b", "#000000")], spacing := [] }
      { colors := [("ab", "#FFFFFF"), ("a-b", "#000000")], spacing := [] }
      {}).matchPercentage = 0 :=
  ⟨by decide, by with_unfolding_all rfl, by with_unfolding_all rfl⟩

/-- Aggregating the empty category. -/
theorem aggregateClasses_nil :
    aggregateClasses 0 [] =
      { total := 0, matching := 0, mismatched := 0, missing := 0,
        discrepancies := [] } := rfl

/-- C4 (amended): `compareDesignTokens` is a pure function, and it is
iteration-order independent in the following senses: (1) permuting the
extracted map (duplicate-free keys) does not change the result when every
expected token name occurs verbatim as an extracted key (the fuzzy-lookup
passes are only order-sensitive when a name must fall through to them);
(2) permuting the expected map leaves `matchPercentage` (and all counts)
unchanged and permutes the discrepancy list. -/
theorem compare_order_independence :
    (∀ (d : DesignTokens) (e₁ e₂ : CSSTokens) (opts : ComparisonOptions),
      e₁.colors.Perm e₂.colors → (e₁.colors.map Prod.fst).Nodup →
      (∀ p ∈ d.colors, p.1 ∈ e₁.colors.map Prod.fst) →
      e₁.spacing.Perm e₂.spacing → (e₁.spacing.map Prod.fst).Nodup →
      (∀ p ∈ d.spacing, p.1 ∈ e₁.spacing.map Prod.fst) →
      (e₁.borderRadius.getD []).Perm (e₂.borderRadius.getD []) →
      ((e₁.borderRadius.getD []).map Prod.fst).Nodup →
      (∀ p ∈ d.borderRadius.getD [],
        p.1 ∈ (e₁.borderRadius.getD []).map Prod.fst) →
      compareDesignTokens d e₁ opts = compareDesignTokens d e₂ opts) ∧
    (∀ (d₁ d₂ : DesignTokens) (e : CSSTokens) (opts : ComparisonOptions),
      d₁.colors.Perm d₂.colors → d₁.spacing.Perm d₂.spacing →
      (d₁.borderRadius.getD []).Perm (d₂.borderRadius.getD []) →
      (compareDesignTokens d₁ e opts).matchPercentage =
        (compareDesignTokens d₂ e opts).matchPercentage ∧
      (compareDesignTokens d₁ e opts).discrepancies.Perm
        (compareDesignTokens d₂ e opts).discrepancies) := by
  constructor
  · intro d e₁ e₂ opts hpc hndc hkc hps hnds hks hpb hndb hkb
    have hC : compareColors d.colors e₁.colors (opts.colorTolerance.getD 5) =
        compareColors d.colors e₂.colors (opts.colorTolerance.getD 5) := by
      unfold compareColors
      rw [List.map_congr_left (fun p hp =>
        classifyColor_perm hpc hndc _ (hkc p hp))]
    have hS : compareSpacing d.spacing e₁.spacing
          (opts.spacingTolerance.getD 2) TokenKind.spacing =
        compareSpacing d.spacing e₂.spacing
          (opts.spacingTolerance.getD 2) TokenKind.spacing := by
      unfold compareSpacing
      rw [List.map_congr_left (fun p hp =>
        classifySpacing_perm hps hnds _ _ (hks p hp))]
    unfold compareDesignTokens
    rcases hX : d.borderRadius with _ | br
    · simp only [hX, hC, hS]
    · rw [hX] at hkb
      simp only [Option.getD_some] at hkb
      have hB : compareSpacing br (e₁.borderRadius.getD [])
            (opts.spacingTolerance.getD 2) TokenKind.borderRadius =
          compareSpacing br (e₂.borderRadius.getD [])
            (opts.spacingTolerance.getD 2) TokenKind.borderRadius := by
        unfold compareSpacing
        rw [List.map_congr_left (fun p hp =>
          classifySpacing_perm hpb hndb _ _ (hkb p hp))]
      simp only [hX, hC, hS, hB]
  · intro d₁ d₂ e opts hpc hps hpb
    have hC := aggregate_map_perm hpc
      (classifyColor e.colors (opts.colorTolerance.getD 5))
    have hS := aggregate_map_perm hps
      (classifySpacing e.spacing (opts.spacingTolerance.getD 2)
        TokenKind.spacing)
    obtain ⟨hCt, hCm, -, -, hCd⟩ := hC
    obtain ⟨hSt, hSm, -, -, hSd⟩ := hS
    rcases hbr1 : d₁.borderRadius with _ | br1 <;>
      rcases hbr2 : d₂.borderRadius with _ | br2 <;>
      rw [hbr1, hbr2] at hpb <;>
      simp only [Option.getD_none, Option.getD_some] at hpb
    · unfold compareDesignTokens compareColors compareSpacing
      simp only [hbr1, hbr2]
      exact ⟨by rw [hCt, hSt, hCm, hSm], (hCd.append hSd).append (List.Perm.refl _)⟩
    · have hbnil : br2 = [] := hpb.symm.eq_nil
      subst hbnil
      unfold compareDesignTokens compareColors compareSpacing
      simp only [hbr1, hbr2, List.length_nil, List.map_nil, aggregateClasses_nil]
      exact ⟨by rw [hCt, hSt, hCm, hSm], (hCd.append hSd).append (List.Perm.refl _)⟩
    · have hbnil : br1 = [] := hpb.eq_nil
      subst hbnil
      unfold compareDesignTokens compareColors compareSpacing
      simp only [hbr1, hbr2, List.length_nil, List.map_nil, aggregateClasses_nil]
      exact ⟨by rw [hCt, hSt, hCm, hSm], (hCd.append hSd).append (List.Perm.refl _)⟩
    · have hB := aggregate_map_perm hpb
        (classifySpacing (e.borderRadius.getD [])
          (opts.spacingTolerance.getD 2) TokenKind.borderRadius)
      obtain ⟨hBt, hBm, -, -, hBd⟩ := hB
      unfold compareDesignTokens compareColors compareSpacing
      simp only [hbr1, hbr2]
      exact ⟨by rw [hCt, hSt, hCm, hSm, hBt, hBm], (hCd.append hSd).append hBd⟩

/-- Witness for `compare_order_independence` at concrete inputs: permuting a
directly-matched extracted map does not change the result. -/
theorem compare_order_independence_witness :
    compareDesignTokens { colors := [("x", "#000000")], spacing := [] }
        { colors := [("x", "#000000"), ("y", "#111111")], spacing := [] } {} =
      compareDesignTokens { colors := [("x", "#000000")], spacing := [] }
        { colors := [("y", "#111111"), ("x", "#000000")], spacing := [] } {} :=
  compare_order_independence.1
    { colors := [("x", "#000000")], spacing := [] }
    { colors := [("x", "#000000"), ("y", "#111111")], spacing := [] }
    { colors := [("y", "#111111"), ("x", "#000000")], spacing := [] }
    {} (by decide) (by decide) (by decide) (by decide) (by decide) (by decide)
    (by decide) (by decide) (by decide)

/-- C6 (counterexample): an unrecognized color format passes through
unchanged, NOT uppercased: `normalizeColorValue "red" = "red" ≠ "RED"`,
refuting "any unrecognized format is passed through uppercased". -/
theorem normalizeColor_no_uppercase_passthrough :
    normalizeColorValue "red" = "red" ∧ normalizeColorValue "red" ≠ "RED" :=
  ⟨by with_unfolding_all rfl, by decide⟩

/-- C6 (amended): character-exact behavior of `normalizeColorValue` on the
trimmed input: a 4-character `#`-prefixed value has its three trailing
characters doubled and is uppercased; any other `#`-prefixed value is
uppercased unchanged; otherwise, the first `rgb()/rgba()` pattern occurring
anywhere in the string is converted to `#` plus one zero-padded hex byte
per integer channel (the alpha capture is dropped) and uppercased; anything
else is returned trimmed but otherwise unchanged (in particular it is not
uppercased). -/
theorem normalizeColor_characterization (s : String) :
    (∀ c₀ c₁ c₂ c₃ : Char, jsTrim s.data = [c₀, c₁, c₂, c₃] → c₀ = '#' →
      normalizeColorValue s =
        String.mk (['#', c₁, c₁, c₂, c₂, c₃, c₃].map Char.toUpper)) ∧
    ((jsTrim s.data).head? = some '#' → (jsTrim s.data).length ≠ 4 →
      normalizeColorValue s = String.mk ((jsTrim s.data).map Char.toUpper)) ∧
    (∀ r g b : ℕ, (jsTrim s.data).head? ≠ some '#' →
      rgbSearch (jsTrim s.data) = some (r, g, b) →
      normalizeColorValue s =
        String.mk (('#' :: (hexByte r ++ hexByte g ++ hexByte b)).map
          Char.toUpper)) ∧
    ((jsTrim s.data).head? ≠ some '#' → rgbSearch (jsTrim s.data) = none →
      normalizeColorValue s = String.mk (jsTrim s.data)) := by
  refine ⟨?_, ?_, ?_, ?_⟩
  · intro c₀ c₁ c₂ c₃ h hc
    subst hc
    unfold normalizeColorValue
    rw [h]
    rfl
  · intro hhead hlen
    unfold normalizeColorValue
    rw [if_pos hhead]
    rcases ht : jsTrim s.data with _ | ⟨a, _ | ⟨b, _ | ⟨c, _ | ⟨d, _ | ⟨e, tl⟩⟩⟩⟩⟩
    · rfl
    · rfl
    · rfl
    · rfl
    · rw [ht] at hlen; exact absurd rfl hlen
    · rfl
  · intro r g b hhead hsearch
    unfold normalizeColorValue
    rw [if_neg hhead, hsearch]
  · intro hhead hsearch
    unfold normalizeColorValue
    rw [if_neg hhead, hsearch]

/-- Witness for `normalizeColor_characterization`: shorthand expansion at
`"#abc"` and rgb conversion at `"rgb(1,2,3)"`. -/
theorem normalizeColor_characterization_witness :
    normalizeColorValue "#abc" =
      String.mk (['#', 'a', 'a', 'b', 'b', 'c', 'c'].map Char.toUpper) ∧
    normalizeColorValue "rgb(1,2,3)" =
      String.mk (('#' :: (hexByte 1 ++ hexByte 2 ++ hexByte 3)).map
        Char.toUpper) :=
  ⟨(normalizeColor_characterization "#abc").1 '#' 'a' 'b' 'c' (by decide) rfl,
   (normalizeColor_characterization "rgb(1,2,3)").2.2.1 1 2 3 (by decide)
     (by decide)⟩

/-! ## Task-id generation lemmas -/

/-- Every digit character is a digit. -/
theorem decDigit_isDigit (d : ℕ) : (decDigit d).isDigit := by
  unfold decDigit
  split <;> decide

/-- Digit value round trip for `d < 10`. -/
theorem decDigit_val (d : ℕ) (h : d < 10) :
    (decDigit d).toNat - '0'.toNat = d := by
  interval_cases d <;> decide

/-- `digitsVal` as a fold from an arbitrary accumulator. -/
theorem digitsVal_foldl (l : List Char) (a : ℕ) :
    l.foldl (fun acc c => 10 * acc + (c.toNat - '0'.toNat)) a =
      a * 10 ^ l.length + digitsVal l := by
  induction l generalizing a with
  | nil => simp [digitsVal]
  | cons c t ih =>
    simp only [List.foldl_cons, digitsVal, List.length_cons]
    rw [ih, ih]
    ring

/-- `digitsVal` over an append. -/
theorem digitsVal_append (l₁ l₂ : List Char) :
    digitsVal (l₁ ++ l₂) = digitsVal l₁ * 10 ^ l₂.length + digitsVal l₂ := by
  unfold digitsVal
  rw [List.foldl_append, digitsVal_foldl]
  rfl

/-- Leading zeros do not change the parsed value. -/
theorem digitsVal_replicate_zero (k : ℕ) (l : List Char) :
    digitsVal (List.replicate k '0' ++ l) = digitsVal l := by
  rw [digitsVal_append]
  have hz : digitsVal (List.replicate k '0') = 0 := by
    induction k with
    | zero => rfl
    | succ k ih =>
      rw [List.replicate_succ]
      unfold digitsVal at ih ⊢
      rw [List.foldl_cons]
      simpa using ih
  rw [hz]
  ring

/-- With sufficient fuel, decimal rendering produces only digits. -/
theorem natToDecCharsAux_digits :
    ∀ (fuel n : ℕ), n < fuel → ∀ c ∈ natToDecCharsAux fuel n, c.isDigit := by
  intro fuel
  induction fuel with
  | zero => intro n h; omega
  | succ fuel ih =>
    intro n _ c hc
    unfold natToDecCharsAux at hc
    split at hc
    · rw [List.mem_singleton] at hc
      exact hc ▸ decDigit_isDigit n
    · rcases List.mem_append.mp hc with h | h
      · exact ih (n / 10) (by omega) c h
      · rw [List.mem_singleton] at h
        exact h ▸ decDigit_isDigit (n % 10)

/-- Decimal rendering produces only digits. -/
theorem natToDecChars_digits (n : ℕ) : ∀ c ∈ natToDecChars n, c.isDigit :=
  natToDecCharsAux_digits (n + 1) n (by omega)

/-- Decimal rendering is nonempty. -/
theorem natToDecChars_ne_nil (n : ℕ) : natToDecChars n ≠ [] := by
  unfold natToDecChars natToDecCharsAux
  split
  · simp
  · simp

/-- With sufficient fuel, the decimal rendering round-trips. -/
theorem digitsVal_natToDecCharsAux :
    ∀ (fuel n : ℕ), n < fuel → digitsVal (natToDecCharsAux fuel n) = n := by
  intro fuel
  induction fuel with
  | zero => intro n h; omega
  | succ fuel ih =>
    intro n hn
    unfold natToDecCharsAux
    split
    · rename_i h
      unfold digitsVal
      rw [List.foldl_cons, List.foldl_nil]
      simpa using decDigit_val n h
    · rename_i h
      rw [digitsVal_append]
      rw [ih (n / 10) (by omega)]
      unfold digitsVal
      rw [List.foldl_cons, List.foldl_nil]
      have := decDigit_val (n % 10) (Nat.mod_lt n (by omega))
      simp only [List.length_singleton, pow_one]
      omega

/-- Decimal rendering round trip. -/
theorem digitsVal_natToDecChars (n : ℕ) :
    digitsVal (natToDecChars n) = n :=
  digitsVal_natToDecCharsAux (n + 1) n (by omega)

/-- Zero-padding preserves digitness. -/
theorem padStart3_digits (l : List Char) (h : ∀ c ∈ l, c.isDigit) :
    ∀ c ∈ padStart3 l, c.isDigit := by
  unfold padStart3
  split
  · intro c hc
    rcases List.mem_append.mp hc with h0 | h0
    · rw [List.eq_of_mem_replicate h0]; decide
    · exact h c h0
  · exact h

/-- Zero-padding preserves nonemptiness. -/
theorem padStart3_ne_nil (l : List Char) (h : l ≠ []) : padStart3 l ≠ [] := by
  unfold padStart3
  split
  · simp [h]
  · exact h

/-- Zero-padding preserves the parsed value. -/
theorem digitsVal_padStart3 (l : List Char) :
    digitsVal (padStart3 l) = digitsVal l := by
  unfold padStart3
  split
  · exact digitsVal_replicate_zero _ _
  · rfl

/-- Stripping an exact literal head. -/
theorem stripLead_append (p l : List Char) : stripLead p (p ++ l) = some l := by
  induction p with
  | nil => rfl
  | cons c ps ih => simp [stripLead, ih]

/-- The id rendered for `n` parses back to `n`. -/
theorem parseTaskIdNum_renderTaskId (n : ℕ) :
    parseTaskIdNum (renderTaskId n) = some n := by
  unfold parseTaskIdNum renderTaskId
  have hs : stripLead ['t', 'a', 's', 'k', '-']
      ('t' :: 'a' :: 's' :: 'k' :: '-' :: padStart3 (natToDecChars n)) =
      some (padStart3 (natToDecChars n)) :=
    stripLead_append ['t', 'a', 's', 'k', '-'] (padStart3 (natToDecChars n))
  rw [hs]
  dsimp only
  rw [if_pos]
  · rw [digitsVal_padStart3, digitsVal_natToDecChars]
  · have hne := padStart3_ne_nil _ (natToDecChars_ne_nil n)
    have hdig := padStart3_digits _ (natToDecChars_digits n)
    simp only [List.isEmpty_iff, List.all_eq_true, Bool.and_eq_true,
      Bool.not_eq_true']
    refine ⟨by simpa using hne, hdig⟩

/-- The fold of `generateTaskId` only grows from its accumulator. -/
theorem maxTaskNum_foldl_ge (ts : List Task) (a : ℕ) :
    a ≤ ts.foldl (fun m t =>
      match parseTaskIdNum t.id with
      | some n => if n > m then n else m
      | none => m) a := by
  induction ts generalizing a with
  | nil => exact le_refl a
  | cons t ts ih =>
    rw [List.foldl_cons]
    refine le_trans ?_ (ih _)
    cases parseTaskIdNum t.id with
    | none => exact le_refl a
    | some n =>
      dsimp only
      split <;> omega

/-- Every parsed suffix of a stored task bounds `maxTaskNum` from below. -/
theorem le_maxTaskNum_of_mem {ts : List Task} {t : Task} (ht : t ∈ ts)
    {n : ℕ} (hp : parseTaskIdNum t.id = some n) : n ≤ maxTaskNum ts := by
  unfold maxTaskNum
  generalize ha : (0 : ℕ) = a
  clear ha
  induction ts generalizing a with
  | nil => cases ht
  | cons u ts ih =>
    rw [List.foldl_cons]
    rcases List.mem_cons.mp ht with rfl | htl
    · rw [hp]
      refine le_trans ?_ (maxTaskNum_foldl_ge ts _)
      dsimp only
      split <;> omega
    · exact ih htl _

/-- A fold of the `generateTaskId` scan is its accumulator or attained. -/
theorem maxTaskNum_foldl_attained (ts : List Task) (a : ℕ) :
    ts.foldl (fun m t =>
        match parseTaskIdNum t.id with
        | some n => if n > m then n else m
        | none => m) a = a ∨
      ∃ t ∈ ts, parseTaskIdNum t.id = some (ts.foldl (fun m t =>
        match parseTaskIdNum t.id with
        | some n => if n > m then n else m
        | none => m) a) := by
  induction ts generalizing a with
  | nil => exact Or.inl rfl
  | cons u ts ih =>
    rw [List.foldl_cons]
    rcases hpu : parseTaskIdNum u.id with _ | n
    · dsimp only
      rcases ih a with h | ⟨t, htm, htp⟩
      · exact Or.inl h
      · exact Or.inr ⟨t, List.mem_cons_of_mem _ htm, htp⟩
    · dsimp only
      by_cases hgt : n > a
      · rw [if_pos hgt]
        rcases ih n with h | ⟨t, htm, htp⟩
        · exact Or.inr ⟨u, List.mem_cons_self _ _, by rw [h]; exact hpu⟩
        · exact Or.inr ⟨t, List.mem_cons_of_mem _ htm, htp⟩
      · rw [if_neg hgt]
        rcases ih a with h | ⟨t, htm, htp⟩
        · exact Or.inl h
        · exact Or.inr ⟨t, List.mem_cons_of_mem _ htm, htp⟩

/-- `maxTaskNum` is either zero or attained by a stored task. -/
theorem maxTaskNum_attained (ts : List Task) :
    maxTaskNum ts = 0 ∨
      ∃ t ∈ ts, parseTaskIdNum t.id = some (maxTaskNum ts) :=
  maxTaskNum_foldl_attained ts 0

/-- The id generated by `generateTaskId` parses to `maxTaskNum + 1`. -/
theorem parse_generateTaskId (q : TaskQueue) :
    parseTaskIdNum (generateTaskId q) =
      some (maxTaskNum (q.tasks ++ q.completed) + 1) :=
  parseTaskIdNum_renderTaskId _

/-- The generated id differs from every stored id (freshness). -/
theorem generateTaskId_fresh (q : TaskQueue) :
    generateTaskId q ∉ taskIds q := by
  intro hmem
  obtain ⟨t, ht, hid⟩ := List.mem_map.mp hmem
  have hp : parseTaskIdNum t.id =
      some (maxTaskNum (q.tasks ++ q.completed) + 1) := by
    rw [hid]; exact parse_generateTaskId q
  have := le_maxTaskNum_of_mem ht hp
  omega

/-- Membership of ids bounds `maxTaskNum` (id form). -/
theorem le_maxTaskNum_of_mem_ids {q : TaskQueue} {id : String}
    (h : id ∈ taskIds q) {n : ℕ} (hp : parseTaskIdNum id = some n) :
    n ≤ maxTaskNum (q.tasks ++ q.completed) := by
  obtain ⟨t, ht, hid⟩ := List.mem_map.mp h
  exact le_maxTaskNum_of_mem ht (by rw [hid]; exact hp)

/-- `maxTaskNum` is monotone under id-set inclusion. -/
theorem maxTaskNum_le_of_ids_sub {q q' : TaskQueue}
    (hsub : ∀ id ∈ taskIds q, id ∈ taskIds q') :
    maxTaskNum (q.tasks ++ q.completed) ≤
      maxTaskNum (q'.tasks ++ q'.completed) := by
  rcases maxTaskNum_attained (q.tasks ++ q.completed) with h | ⟨t, ht, htp⟩
  · omega
  · exact le_maxTaskNum_of_mem_ids
      (hsub t.id (List.mem_map.mpr ⟨t, ht, rfl⟩)) htp

/-- Decomposition of a successful `extractFirst`. -/
theorem extractFirst_some {tid : String} :
    ∀ {ts : List Task} {t : Task} {rest : List Task},
    extractFirst tid ts = some (t, rest) →
    ∃ l₁ l₂, ts = l₁ ++ t :: l₂ ∧ rest = l₁ ++ l₂ ∧ t.id = tid := by
  intro ts
  induction ts with
  | nil => intro t rest h; cases h
  | cons a ts ih =>
    intro t rest h
    unfold extractFirst at h
    by_cases ha : a.id = tid
    · rw [if_pos ha] at h
      simp only [Option.some.injEq, Prod.mk.injEq] at h
      obtain ⟨rfl, rfl⟩ := h
      exact ⟨[], ts, rfl, rfl, ha⟩
    · rw [if_neg ha] at h
      rcases he : extractFirst tid ts with _ | ⟨t', r'⟩
      · rw [he] at h; cases h
      · rw [he] at h
        simp only [Option.map_some, Option.some.injEq, Prod.mk.injEq] at h
        obtain ⟨rfl, rfl⟩ := h
        obtain ⟨l₁, l₂, hts, hr, hid⟩ := ih he
        exact ⟨a :: l₁, l₂, by rw [hts]; rfl, by simp [hr], hid⟩

/-- Ids persisted by `addTask`: old ids plus the fresh id. -/
theorem taskIds_addTask (q : TaskQueue) (draft : TaskDraft) (now : ℕ) :
    taskIds (addTask q draft now).2 =
      (q.tasks.map Task.id ++ [generateTaskId q]) ++ q.completed.map Task.id := by
  unfold taskIds addTask saveQueue
  simp

/-- `completeTask` preserves id membership. -/
theorem mem_taskIds_completeTask {q : TaskQueue} {tid : String} {now : ℕ}
    {q' : TaskQueue} (h : completeTask q tid now = Except.ok q')
    {id : String} (hm : id ∈ taskIds q) : id ∈ taskIds q' := by
  unfold completeTask at h
  rcases he : extractFirst tid q.tasks with _ | ⟨t, rest⟩
  · rw [he] at h; cases h
  · rw [he] at h
    obtain ⟨l₁, l₂, hts, hrest, -⟩ := extractFirst_some he
    simp only [Except.ok.injEq] at h
    subst h
    unfold taskIds at hm ⊢
    unfold saveQueue
    simp only [List.map_append, List.mem_append] at hm ⊢
    rcases hm with hm | hm
    · rw [hts] at hm
      simp only [List.map_append, List.map_cons, List.mem_append,
        List.mem_cons] at hm
      rcases hm with hm | hm | hm
      · exact Or.inl (by rw [hrest]; simp [hm])
      · exact Or.inr (by simp [hm])
      · exact Or.inl (by rw [hrest]; simp [hm])
    · exact Or.inr (by simp [hm])

/-- Ids are never lost by an operation sequence. -/
theorem runOps_mem_ids :
    ∀ (ops : List QueueOp) (q : TaskQueue) (id : String),
    id ∈ taskIds q → id ∈ taskIds (runOps q ops).1 := by
  intro ops
  induction ops with
  | nil => intro q id h; exact h
  | cons op rest ih =>
    intro q id h
    match op with
    | QueueOp.add draft now =>
      show id ∈ taskIds (runOps (addTask q draft now).2 rest).1
      refine ih _ _ ?_
      rw [taskIds_addTask]
      unfold taskIds at h
      simp only [List.map_append, List.mem_append] at h ⊢
      rcases h with h | h
      · exact Or.inl (Or.inl h)
      · exact Or.inr h
    | QueueOp.complete tid now =>
      rcases hc : completeTask q tid now with e | q'
      · simp only [runOps, hc]
        exact ih _ _ h
      · simp only [runOps, hc]
        exact ih _ _ (mem_taskIds_completeTask hc h)

/-- Every id generated along an operation sequence parses to a number
strictly above the initial `maxTaskNum`. -/
theorem runOps_gen_gt :
    ∀ (ops : List QueueOp) (q : TaskQueue),
    ∀ id ∈ (runOps q ops).2, ∃ n, parseTaskIdNum id = some n ∧
      maxTaskNum (q.tasks ++ q.completed) < n := by
  intro ops
  induction ops with
  | nil => intro q id h; cases h
  | cons op rest ih =>
    intro q id h
    match op with
    | QueueOp.add draft now =>
      have hmq' : ∀ i ∈ taskIds q, i ∈ taskIds (addTask q draft now).2 := by
        intro i hi
        rw [taskIds_addTask]
        unfold taskIds at hi
        simp only [List.map_append, List.mem_append] at hi ⊢
        rcases hi with hi | hi
        · exact Or.inl (Or.inl hi)
        · exact Or.inr hi
      have hle : maxTaskNum (q.tasks ++ q.completed) ≤
          maxTaskNum ((addTask q draft now).2.tasks ++
            (addTask q draft now).2.completed) :=
        maxTaskNum_le_of_ids_sub hmq'
      have hsplit : id = generateTaskId q ∨
          id ∈ (runOps (addTask q draft now).2 rest).2 := by
        rcases List.mem_cons.mp h with h0 | h0
        · exact Or.inl h0
        · exact Or.inr h0
      rcases hsplit with rfl | hmem
      · exact ⟨maxTaskNum (q.tasks ++ q.completed) + 1,
          parse_generateTaskId q, by omega⟩
      · obtain ⟨n, hp, hgt⟩ := ih _ id hmem
        exact ⟨n, hp, by omega⟩
    | QueueOp.complete tid now =>
      rcases hc : completeTask q tid now with e | q'
      · simp only [runOps, hc] at h
        exact ih _ id h
      · simp only [runOps, hc] at h
        obtain ⟨n, hp, hgt⟩ := ih _ id h
        have hle : maxTaskNum (q.tasks ++ q.completed) ≤
            maxTaskNum (q'.tasks ++ q'.completed) :=
          maxTaskNum_le_of_ids_sub (fun i hi => mem_taskIds_completeTask hc hi)
        exact ⟨n, hp, by omega⟩

/-- The numeric suffixes of the generated ids are strictly increasing in
generation order. -/
theorem runOps_gen_pairwise :
    ∀ (ops : List QueueOp) (q : TaskQueue),
    ((runOps q ops).2.map (fun id => (parseTaskIdNum id).getD 0)).Pairwise
      (· < ·) := by
  intro ops
  induction ops with
  | nil => intro q; exact List.Pairwise.nil
  | cons op rest ih =>
    intro q
    match op with
    | QueueOp.add draft now =>
      show (((generateTaskId q) :: (runOps (addTask q draft now).2 rest).2).map
        (fun id => (parseTaskIdNum id).getD 0)).Pairwise (· < ·)
      rw [List.map_cons, List.pairwise_cons]
      constructor
      · intro v hv
        obtain ⟨i, hi, rfl⟩ := List.mem_map.mp hv
        obtain ⟨n, hp, hgt⟩ := runOps_gen_gt rest _ i hi
        have hnew : generateTaskId q ∈ taskIds (addTask q draft now).2 := by
          rw [taskIds_addTask]
          simp
        have hub : maxTaskNum (q.tasks ++ q.completed) + 1 ≤
            maxTaskNum ((addTask q draft now).2.tasks ++
              (addTask q draft now).2.completed) :=
          le_maxTaskNum_of_mem_ids hnew (parse_generateTaskId q)
        rw [parse_generateTaskId q, hp]
        simp only [Option.getD_some]
        omega
      · exact ih _
    | QueueOp.complete tid now =>
      rcases hc : completeTask q tid now with e | q' <;>
        simp only [runOps, hc] <;> exact ih _

/-- C7: along every interleaving of `add` and `complete` operations, from
any starting queue, the generated task ids all match the `task-N` pattern,
their numeric suffixes are strictly increasing (hence non-decreasing), the
ids are pairwise distinct, and each `addTask` assigns
`task-(maxTaskNum+1)` zero-padded — an id fresh with respect to both the
active and the completed collections at that moment. -/
theorem generated_taskIds_unique_monotone (q : TaskQueue)
    (ops : List QueueOp) :
    ((runOps q ops).2.map (fun id => (parseTaskIdNum id).getD 0)).Pairwise
      (· < ·) ∧
    (∀ id ∈ (runOps q ops).2, (parseTaskIdNum id).isSome) ∧
    (runOps q ops).2.Nodup ∧
    ∀ (q' : TaskQueue) (draft : TaskDraft) (now : ℕ),
      (addTask q' draft now).1.id =
        renderTaskId (maxTaskNum (q'.tasks ++ q'.completed) + 1) ∧
      (addTask q' draft now).1.id ∉ taskIds q' := by
  refine ⟨runOps_gen_pairwise ops q, ?_, ?_, ?_⟩
  · intro id h
    obtain ⟨n, hp, -⟩ := runOps_gen_gt ops q id h
    rw [hp]
    rfl
  · have hpw := runOps_gen_pairwise ops q
    rw [List.pairwise_map] at hpw
    exact hpw.imp (fun {a b} hlt heq => by rw [heq] at hlt; exact lt_irrefl _ hlt)
  · intro q' draft now
    exact ⟨rfl, generateTaskId_fresh q'⟩

/-- Witness for `generated_taskIds_unique_monotone`: in a concrete run
(`add`, `add`, `complete`, `add` from an empty queue) the second generated
id is `task-002` and parses. -/
theorem generated_taskIds_unique_monotone_witness :
    "task-002" ∈ (runOps { tasks := [], completed := [], current := none }
      [QueueOp.add { priority := TaskPriority.high } 0,
       QueueOp.add { priority := TaskPriority.low } 1,
       QueueOp.complete "task-001" 2,
       QueueOp.add { priority := TaskPriority.medium } 3]).2 ∧
    (parseTaskIdNum "task-002").isSome :=
  ⟨by decide,
   (generated_taskIds_unique_monotone
      { tasks := [], completed := [], current := none }
      [QueueOp.add { priority := TaskPriority.high } 0,
       QueueOp.add { priority := TaskPriority.low } 1,
       QueueOp.complete "task-001" 2,
       QueueOp.add { priority := TaskPriority.medium } 3]).2.1
     "task-002" (by decide)⟩

/-! ## `getNextPendingTask` ordering lemmas -/

/-- The sort comparator is total. -/
theorem taskBefore_total (a b : Task) : taskBefore a b || taskBefore b a := by
  unfold taskBefore
  simp only [Bool.or_eq_true, Bool.and_eq_true, decide_eq_true_eq]
  omega

/-- The sort comparator is reflexive. -/
theorem taskBefore_refl (a : Task) : taskBefore a a := by
  unfold taskBefore
  simp

/-- The sort comparator is transitive. -/
theorem taskBefore_trans (a b c : Task) :
    taskBefore a b → taskBefore b c → taskBefore a c := by
  unfold taskBefore
  simp only [Bool.or_eq_true, Bool.and_eq_true, decide_eq_true_eq]
  omega

/-- The head of the stable merge sort by `taskBefore` is a minimal element,
and among the entries tied with it (equal priority and creation time) it is
the first in input order. -/
theorem head_mergeSort_spec :
    ∀ (l : List Task) (a : Task),
    ∃ t, (List.mergeSort (a :: l) taskBefore).head? = some t ∧ t ∈ a :: l ∧
      (∀ u ∈ a :: l, taskBefore t u) ∧
      ((a :: l).filter (fun u =>
        taskBefore t u && taskBefore u t)).head? = some t := by
  intro l
  induction l with
  | nil =>
    intro a
    refine ⟨a, by simp [List.mergeSort], by simp, ?_, ?_⟩
    · intro u hu
      rw [List.mem_singleton] at hu
      exact hu ▸ taskBefore_refl a
    · rw [List.filter_cons_of_pos (by simp [taskBefore_refl])]
      rfl
  | cons b l ih =>
    intro a
    obtain ⟨l₁, l₂, h₁, h₂, h₃⟩ :=
      List.mergeSort_cons taskBefore_trans taskBefore_total a (b :: l)
    have hsorted := List.sorted_mergeSort taskBefore_trans taskBefore_total
      (a :: b :: l)
    match hl₁ : l₁ with
    | [] =>
      simp only [List.nil_append] at h₁ h₂
      refine ⟨a, by rw [h₁]; rfl, by simp, ?_, ?_⟩
      · intro u hu
        rcases List.mem_cons.mp hu with rfl | hu
        · exact taskBefore_refl u
        · have hu₂ : u ∈ l₂ := by
            rw [← h₂, List.mem_mergeSort]
            exact hu
          rw [h₁] at hsorted
          exact List.rel_of_pairwise_cons hsorted hu₂
      · rw [List.filter_cons_of_pos (by simp [taskBefore_refl])]
        rfl
    | c :: l₁' =>
      obtain ⟨t', ht'head, ht'mem, ht'le, ht'filter⟩ := ih b
      have htc : c = t' := by
        rw [h₂] at ht'head
        simpa using ht'head
      rw [← htc] at ht'mem ht'le ht'filter
      have hac : ¬ taskBefore a c := by
        have := h₃ c (by simp)
        simpa using this
      have hca : taskBefore c a := by
        have := taskBefore_total c a
        rcases Bool.or_eq_true_iff.mp this with h | h
        · exact h
        · exact absurd h hac
      refine ⟨c, by rw [h₁]; rfl, List.mem_cons_of_mem _ ht'mem, ?_, ?_⟩
      · intro u hu
        rcases List.mem_cons.mp hu with rfl | hu
        · exact hca
        · exact ht'le u hu
      · rw [List.filter_cons_of_neg (by simp [hac])]
        exact ht'filter

/-- `priorityOrder` is injective. -/
theorem priorityOrder_inj {p q : TaskPriority}
    (h : priorityOrder p = priorityOrder q) : p = q := by
  cases p <;> cases q <;> first | rfl | (exfalso; simp [priorityOrder] at h)

/-- Mutual `taskBefore` is exactly a tie on priority and creation time. -/
theorem taskBefore_tie (t u : Task) :
    (taskBefore t u && taskBefore u t) =
      (decide (u.priority = t.priority) &&
        decide (u.createdAt = t.createdAt)) := by
  rw [Bool.eq_iff_iff]
  unfold taskBefore
  simp only [Bool.and_eq_true, Bool.or_eq_true, decide_eq_true_eq]
  constructor
  · rintro ⟨h1, h2⟩
    rcases h1 with h1 | ⟨h1e, h1c⟩ <;> rcases h2 with h2 | ⟨h2e, h2c⟩
    · omega
    · omega
    · omega
    · exact ⟨priorityOrder_inj h2e, Nat.le_antisymm h2c h1c⟩
  · rintro ⟨hpe, hce⟩
    rw [hpe, hce]
    simp

/-- C8: `getNextPendingTask` returns no task exactly when no pending task
exists; otherwise it returns a pending task of maximal priority, with the
earliest creation time within that priority, and — among exact ties on
priority and creation time — the first such task in queue order (stable
FIFO). -/
theorem getNextPendingTask_spec (q : TaskQueue) :
    (getNextPendingTask q = none ↔ getPendingTasks q = []) ∧
    ∀ t, getNextPendingTask q = some t →
      t ∈ getPendingTasks q ∧ t.status = TaskStatus.pending ∧
      (∀ u ∈ getPendingTasks q,
        priorityOrder u.priority ≤ priorityOrder t.priority) ∧
      (∀ u ∈ getPendingTasks q, u.priority = t.priority →
        t.createdAt ≤ u.createdAt) ∧
      ((getPendingTasks q).filter (fun u =>
        decide (u.priority = t.priority) &&
        decide (u.createdAt = t.createdAt))).head? = some t := by
  constructor
  · unfold getNextPendingTask
    rw [List.head?_eq_none_iff]
    constructor
    · intro h
      have := congrArg List.length h
      rw [List.length_mergeSort] at this
      exact List.eq_nil_of_length_eq_zero this
    · intro h
      rw [h, List.mergeSort_nil]
  · intro t ht
    match hp : getPendingTasks q with
    | [] =>
      unfold getNextPendingTask at ht
      rw [hp, List.mergeSort_nil] at ht
      cases ht
    | a :: l =>
      unfold getNextPendingTask at ht
      rw [hp] at ht
      obtain ⟨t₀, ht₀head, ht₀mem, ht₀le, ht₀filter⟩ := head_mergeSort_spec l a
      have htt : t₀ = t := by rw [ht₀head] at ht; exact Option.some.inj ht
      subst htt
      have hmemP : t₀ ∈ getPendingTasks q := by rw [hp]; exact ht₀mem
      refine ⟨ht₀mem, ?_, ?_, ?_, ?_⟩
      · unfold getPendingTasks at hmemP
        have := (List.mem_filter.mp hmemP).2
        simpa using this
      · intro u hu
        have := ht₀le u hu
        unfold taskBefore at this
        simp only [Bool.or_eq_true, Bool.and_eq_true, decide_eq_true_eq]
          at this
        omega
      · intro u hu hpr
        have := ht₀le u hu
        unfold taskBefore at this
        simp only [Bool.or_eq_true, Bool.and_eq_true, decide_eq_true_eq]
          at this
        rcases this with h | ⟨-, h⟩
        · rw [hpr] at h; omega
        · exact h
      · rw [← List.filter_congr (fun u _ => taskBefore_tie t₀ u)]
        exact ht₀filter

/-- Witness for `getNextPendingTask_spec`: a high-priority task created
later still wins over an earlier low-priority task. -/
theorem getNextPendingTask_spec_witness :
    getNextPendingTask
        { tasks := [
            { id := "task-002", priority := TaskPriority.high,
              status := TaskStatus.pending, createdAt := 5 },
            { id := "task-001", priority := TaskPriority.low,
              status := TaskStatus.pending, createdAt := 0 }],
          completed := [], current := none } =
      some { id := "task-002", priority := TaskPriority.high,
             status := TaskStatus.pending, createdAt := 5 } ∧
    ({ id := "task-002", priority := TaskPriority.high,
       status := TaskStatus.pending, createdAt := 5 } : Task) ∈
      getPendingTasks
        { tasks := [
            { id := "task-002", priority := TaskPriority.high,
              status := TaskStatus.pending, createdAt := 5 },
            { id := "task-001", priority := TaskPriority.low,
              status := TaskStatus.pending, createdAt := 0 }],
          completed := [], current := none } ∧
    ({ id := "task-002", priority := TaskPriority.high,
       status := TaskStatus.pending, createdAt := 5 } : Task).status =
      TaskStatus.pending ∧
    (∀ u ∈ getPendingTasks
        { tasks := [
            { id := "task-002", priority := TaskPriority.high,
              status := TaskStatus.pending, createdAt := 5 },
            { id := "task-001", priority := TaskPriority.low,
              status := TaskStatus.pending, createdAt := 0 }],
          completed := [], current := none },
      priorityOrder u.priority ≤ priorityOrder TaskPriority.high) := by
  have hsome : getNextPendingTask
      { tasks := [
          { id := "task-002", priority := TaskPriority.high,
            status := TaskStatus.pending, createdAt := 5 },
          { id := "task-001", priority := TaskPriority.low,
            status := TaskStatus.pending, createdAt := 0 }],
        completed := [], current := none } =
      some { id := "task-002", priority := TaskPriority.high,
             status := TaskStatus.pending, createdAt := 5 } := by
    unfold getNextPendingTask
    rw [List.mergeSort_of_sorted (by decide)]
    decide
  obtain ⟨h1, h2, h3, -, -⟩ := (getNextPendingTask_spec _).2 _ hsome
  exact ⟨hsome, h1, h2, h3⟩

/-! ## Pipeline cleanup -/

/-- C9: after every terminal outcome of `processTaskV2` — success, abort at
any phase, or a thrown store error — all four mailboxes read back empty and
the queue's current-task pointer is null; and clearing any mailbox then
reading it yields the empty list. -/
theorem processTaskV2_cleanup (env : PipelineEnv) (task : Task) (w0 : World) :
    (processTaskV2 env task w0).2.toDesigner.messages = [] ∧
    (processTaskV2 env task w0).2.toTechLead.messages = [] ∧
    (processTaskV2 env task w0).2.toDeveloper.messages = [] ∧
    (processTaskV2 env task w0).2.toTeamLead.messages = [] ∧
    (processTaskV2 env task w0).2.queue.current = none ∧
    ∀ (w : World) (target : MessageTarget),
      (readMessages (clearMessages w target) target).messages = [] := by
  have hclear : ∀ (w : World) (target : MessageTarget),
      (readMessages (clearMessages w target) target).messages = [] := by
    intro w target
    cases target <;> rfl
  unfold processTaskV2
  rcases hb : processTaskV2Body env task w0 with ⟨r, wb⟩
  simp only [hb]
  refine ⟨rfl, rfl, rfl, rfl, ?_, hclear⟩
  simp [clearMessages, setMailbox, wSetCurrentTask, wPutQueue,
    setCurrentTask, saveQueue]

/-! ## Store-operation characterization lemmas -/

/-- A task update never touches the id. -/
theorem applyTaskUpdate_id (t : Task) (u : TaskUpdate) (now : ℕ) :
    (applyTaskUpdate t u now).id = t.id := rfl

/-- Facts about a successful `updateTask`. -/
theorem updateTask_ok_facts {q : TaskQueue} {tid : String} {u : TaskUpdate}
    {now : ℕ} {q' : TaskQueue} (h : updateTask q tid u now = Except.ok q') :
    q'.tasks.map Task.id = q.tasks.map Task.id ∧
    q'.completed = q.completed ∧ q'.current = q.current ∧
    (∃ t ∈ q.tasks, t.id = tid ∧ applyTaskUpdate t u now ∈ q'.tasks) ∧
    (∀ t' ∈ q'.tasks, t' ∈ q.tasks ∨
      ∃ t ∈ q.tasks, t.id = tid ∧ t' = applyTaskUpdate t u now) := by
  unfold updateTask at h
  rcases hr : replaceFirst (fun t => t.id = tid)
      (fun t => applyTaskUpdate t u now) q.tasks with _ | ts'
  · rw [hr] at h; cases h
  · rw [hr] at h
    simp only [Except.ok.injEq] at h
    subst h
    have main : ∀ (ts ts' : List Task),
        replaceFirst (fun t => t.id = tid)
          (fun t => applyTaskUpdate t u now) ts = some ts' →
        ts'.map Task.id = ts.map Task.id ∧
        (∃ t ∈ ts, t.id = tid ∧ applyTaskUpdate t u now ∈ ts') ∧
        (∀ t' ∈ ts', t' ∈ ts ∨
          ∃ t ∈ ts, t.id = tid ∧ t' = applyTaskUpdate t u now) := by
      intro ts
      induction ts with
      | nil => intro ts' hr; cases hr
      | cons a ts ih =>
        intro ts' hr
        unfold replaceFirst at hr
        by_cases ha : a.id = tid
        · rw [if_pos (by simpa using ha)] at hr
          simp only [Option.some.injEq] at hr
          subst hr
          refine ⟨by simp [applyTaskUpdate_id], ⟨a, by simp, ha, by simp⟩, ?_⟩
          intro t' ht'
          rcases List.mem_cons.mp ht' with rfl | ht'
          · exact Or.inr ⟨a, by simp, ha, rfl⟩
          · exact Or.inl (List.mem_cons_of_mem _ ht')
        · rw [if_neg (by simpa using ha)] at hr
          rcases hrt : replaceFirst (fun t => t.id = tid)
              (fun t => applyTaskUpdate t u now) ts with _ | ts₀
          · rw [hrt] at hr; cases hr
          · rw [hrt] at hr
            simp only [Option.map_some', Option.some.injEq] at hr
            subst hr
            obtain ⟨hids, ⟨t, htm, htid, htm'⟩, hall⟩ := ih ts₀ hrt
            refine ⟨by simp [hids], ⟨t, List.mem_cons_of_mem _ htm, htid,
              List.mem_cons_of_mem _ htm'⟩, ?_⟩
            intro t' ht'
            rcases List.mem_cons.mp ht' with rfl | ht'
            · exact Or.inl (List.mem_cons_self _ _)
            · rcases hall t' ht' with h0 | ⟨t₀, h₀m, h₀id, h₀e⟩
              · exact Or.inl (List.mem_cons_of_mem _ h0)
              · exact Or.inr ⟨t₀, List.mem_cons_of_mem _ h₀m, h₀id, h₀e⟩
    obtain ⟨hids, hex, hall⟩ := main q.tasks ts' hr
    exact ⟨hids, rfl, rfl, hex, hall⟩

/-- `updateTask` cannot fail when the id is present. -/
theorem updateTask_error {q : TaskQueue} {tid : String} {u : TaskUpdate}
    {now : ℕ} {e : String} (h : updateTask q tid u now = Except.error e)
    (hm : ∃ t ∈ q.tasks, t.id = tid) : False := by
  unfold updateTask at h
  rcases hr : replaceFirst (fun t => t.id = tid)
      (fun t => applyTaskUpdate t u now) q.tasks with _ | ts'
  · obtain ⟨t, htm, htid⟩ := hm
    have : ∀ (ts : List Task), t ∈ ts →
        replaceFirst (fun t => t.id = tid)
          (fun t => applyTaskUpdate t u now) ts ≠ none := by
      intro ts
      induction ts with
      | nil => intro hmem; cases hmem
      | cons a ts ih =>
        intro hmem hnone
        unfold replaceFirst at hnone
        by_cases ha : a.id = tid
        · rw [if_pos (by simpa using ha)] at hnone; cases hnone
        · rw [if_neg (by simpa using ha)] at hnone
          rcases List.mem_cons.mp hmem with rfl | hmem
          · exact ha htid
          · rcases hrt : replaceFirst (fun t => t.id = tid)
                (fun t => applyTaskUpdate t u now) ts with _ | ts₀
            · exact ih hmem hrt
            · rw [hrt] at hnone; cases hnone
    exact this q.tasks htm hr
  · rw [hr] at h; cases h

/-- Facts about a successful `completeTask`. -/
theorem completeTask_ok_facts {q : TaskQueue} {tid : String} {now : ℕ}
    {q' : TaskQueue} (h : completeTask q tid now = Except.ok q') :
    (∃ t ∈ q.tasks, t.id = tid ∧
      { t with status := TaskStatus.completed, updatedAt := some now } ∈
        q'.completed) ∧
    (∀ u ∈ q'.tasks, u ∈ q.tasks) ∧
    ((q.tasks.map Task.id).Nodup → ∀ u ∈ q'.tasks, u.id ≠ tid) ∧
    q'.current = (if q.current = some tid then none else q.current) ∧
    q'.completed.map Task.id = q.completed.map Task.id ++ [tid] ∧
    (q.current = some tid → q'.current = none) := by
  unfold completeTask at h
  rcases he : extractFirst tid q.tasks with _ | ⟨t, rest⟩
  · rw [he] at h; cases h
  · rw [he] at h
    simp only [Except.ok.injEq] at h
    subst h
    obtain ⟨l₁, l₂, hts, hrest, htid⟩ := extractFirst_some he
    refine ⟨⟨t, by rw [hts]; simp, htid, by simp [saveQueue]⟩, ?_, ?_, rfl, ?_,
      by intro hcc; rw [hcc]; simp [saveQueue]⟩
    · intro u hu
      simp only [saveQueue] at hu
      rw [hts, hrest] at *
      simp only [List.mem_append] at hu ⊢
      rcases hu with hu | hu
      · exact Or.inl hu
      · exact Or.inr (List.mem_cons_of_mem _ hu)
    · intro hnd u hu hid
      simp only [saveQueue] at hu
      rw [hts] at hnd
      rw [hrest] at hu
      simp only [List.map_append, List.map_cons] at hnd
      rw [List.nodup_append] at hnd
      obtain ⟨h₁, h₂, hdisj⟩ := hnd
      have hne1 : t.id ∉ l₁.map Task.id := by
        intro hmem
        exact hdisj hmem (List.mem_cons_self _ _)
      have hne2 : t.id ∉ l₂.map Task.id := (List.nodup_cons.mp h₂).1
      have hu' : tid ∈ l₁.map Task.id ∨ tid ∈ l₂.map Task.id := by
        rcases List.mem_append.mp hu with hu | hu
        · exact Or.inl (hid ▸ List.mem_map_of_mem _ hu)
        · exact Or.inr (hid ▸ List.mem_map_of_mem _ hu)
      rw [← htid] at hu'
      rcases hu' with h | h
      · exact hne1 h
      · exact hne2 h
    · simp [saveQueue, htid]

/-- Transfer a membership witness across an id-map equality. -/
theorem mem_ids_transfer {ts ts' : List Task} {tid : String}
    (hids : ts'.map Task.id = ts.map Task.id)
    (h : ∃ t ∈ ts, t.id = tid) : ∃ t ∈ ts', t.id = tid := by
  obtain ⟨t, ht, htid⟩ := h
  have : tid ∈ ts'.map Task.id := by
    rw [hids, ← htid]
    exact List.mem_map_of_mem _ ht
  obtain ⟨t', ht', he⟩ := List.mem_map.mp this
  exact ⟨t', ht', he⟩

/-- `completeTask` cannot fail when the id is present. -/
theorem completeTask_error {q : TaskQueue} {tid : String} {now : ℕ}
    {e : String} (h : completeTask q tid now = Except.error e)
    (hm : ∃ t ∈ q.tasks, t.id = tid) : False := by
  unfold completeTask at h
  rcases he : extractFirst tid q.tasks with _ | ⟨t, rest⟩
  · obtain ⟨t, htm, htid⟩ := hm
    have : ∀ (ts : List Task), t ∈ ts → extractFirst tid ts ≠ none := by
      intro ts
      induction ts with
      | nil => intro hmem; cases hmem
      | cons a ts ih =>
        intro hmem hnone
        unfold extractFirst at hnone
        by_cases ha : a.id = tid
        · rw [if_pos ha] at hnone; cases hnone
        · rw [if_neg ha] at hnone
          rcases List.mem_cons.mp hmem with rfl | hmem
          · exact ha htid
          · rcases hrt : extractFirst tid ts with _ | p
            · exact ih hmem hrt
            · rw [hrt] at hnone; cases hnone
    exact this q.tasks htm he
  · rw [he] at h; cases h

/-- Shape of a successful world-level status update. -/
theorem wUpdateTaskStatus_ok_shape {w : World} {tid : String}
    {st : TaskStatus} {w' : World}
    (h : wUpdateTaskStatus w tid st = Except.ok w') :
    ∃ q, updateTaskStatus w.queue tid st w.clock = Except.ok q ∧
      w' = wPutQueue w q := by
  unfold wUpdateTaskStatus at h
  rcases hq : updateTaskStatus w.queue tid st w.clock with e | q
  · rw [hq] at h; cases h
  · rw [hq] at h
    simp only [Except.ok.injEq] at h
    exact ⟨q, rfl, h.symm⟩

/-- A failed world-level status update exposes the queue-level failure. -/
theorem wUpdateTaskStatus_error_shape {w : World} {tid : String}
    {st : TaskStatus} {e : String}
    (h : wUpdateTaskStatus w tid st = Except.error e) :
    updateTaskStatus w.queue tid st w.clock = Except.error e := by
  unfold wUpdateTaskStatus at h
  rcases hq : updateTaskStatus w.queue tid st w.clock with e' | q
  · rw [hq] at h
    simp only [Except.error.injEq] at h
    rw [h]
  · rw [hq] at h; cases h

/-- Shape of a successful world-level rejection. -/
theorem wRejectTask_ok_shape {w : World} {tid reason : String} {w' : World}
    (h : wRejectTask w tid reason = Except.ok w') :
    ∃ q, rejectTask w.queue tid reason w.clock = Except.ok q ∧
      w' = wPutQueue w q := by
  unfold wRejectTask at h
  rcases hq : rejectTask w.queue tid reason w.clock with e | q
  · rw [hq] at h; cases h
  · rw [hq] at h
    simp only [Except.ok.injEq] at h
    exact ⟨q, rfl, h.symm⟩

/-- A failed world-level rejection exposes the queue-level failure. -/
theorem wRejectTask_error_shape {w : World} {tid reason : String} {e : String}
    (h : wRejectTask w tid reason = Except.error e) :
    rejectTask w.queue tid reason w.clock = Except.error e := by
  unfold wRejectTask at h
  rcases hq : rejectTask w.queue tid reason w.clock with e' | q
  · rw [hq] at h
    simp only [Except.error.injEq] at h
    rw [h]
  · rw [hq] at h; cases h

/-- Shape of a successful world-level completion. -/
theorem wCompleteTask_ok_shape {w : World} {tid : String} {w' : World}
    (h : wCompleteTask w tid = Except.ok w') :
    ∃ q, completeTask w.queue tid w.clock = Except.ok q ∧
      w' = wPutQueue w q := by
  unfold wCompleteTask at h
  rcases hq : completeTask w.queue tid w.clock with e | q
  · rw [hq] at h; cases h
  · rw [hq] at h
    simp only [Except.ok.injEq] at h
    exact ⟨q, rfl, h.symm⟩

/-- A failed world-level completion exposes the queue-level failure. -/
theorem wCompleteTask_error_shape {w : World} {tid : String} {e : String}
    (h : wCompleteTask w tid = Except.error e) :
    completeTask w.queue tid w.clock = Except.error e := by
  unfold wCompleteTask at h
  rcases hq : completeTask w.queue tid w.clock with e' | q
  · rw [hq] at h
    simp only [Except.error.injEq] at h
    rw [h]
  · rw [hq] at h; cases h

/-- C1: when the completion report for the task carries a failed build
status, the review phase short-circuits to `Build verification failed`
without invoking the review agent, the pipeline result is a review-phase
failure with that reason, and the task ends rejected with that reason. -/
theorem buildFailure_autoRejects
    (env : PipelineEnv) (task : Task) (w0 : World)
    (hmem : ∃ t ∈ w0.queue.tasks, t.id = task.id)
    (hp : env.planner.result.success = true)
    (pd : PipelineMessage)
    (hpd : env.planner.writes.find? (fun m =>
      m.isPlanningDocument && m.taskId = task.id) = some pd)
    (hd : env.designer.result.success = true)
    (ds : PipelineMessage)
    (hds : env.designer.writes.find? (fun m =>
      m.isDesignSpecification && m.taskId = task.id) = some ds)
    (htl : env.techLead.result.success = true)
    (ta : PipelineMessage)
    (hta : env.techLead.writes.find? (fun m =>
      m.isTaskAssignment && m.taskId = task.id) = some ta)
    (hdev : env.developer.result.success = true)
    (rep : PipelineMessage)
    (hrep : env.developer.writes.find? (fun m =>
      m.isCompletionReport && m.taskId = task.id) = some rep)
    (hfail : rep.buildStatus = "failed") :
    (∀ w : World, (readMessages w MessageTarget.toTeamLead).messages.find?
        (fun m => m.isCompletionReport && m.taskId = task.id) = some rep →
      runReview env task w =
        ({ approved := false, reason := some "Build verification failed" }, w)) ∧
    (processTaskV2 env task w0).1 =
      { success := false, error := some "Build verification failed",
        phase := some PipePhase.review } ∧
    (∃ t ∈ (processTaskV2 env task w0).2.queue.tasks,
      t.id = task.id ∧ t.status = TaskStatus.rejected ∧
      t.rejectionReason = some "Build verification failed") ∧
    (processTaskV2 env task w0).2.reviewInvocations = w0.reviewInvocations := by
  have hrev : ∀ w : World,
      (readMessages w MessageTarget.toTeamLead).messages.find?
        (fun m => m.isCompletionReport && m.taskId = task.id) = some rep →
      runReview env task w =
        ({ approved := false, reason := some "Build verification failed" }, w) := by
    intro w hfind
    unfold runReview
    simp only []
    rw [hfind]
    simp only []
    rw [if_pos hfail]
  refine ⟨hrev, ?_⟩
  have hjs : jsOrStr (some "Build verification failed") "Review failed" =
      "Build verification failed" := by decide
  rcases hbp : processTaskV2Body env task w0 with ⟨r, wf⟩
  have hbp0 := hbp
  unfold processTaskV2Body at hbp
  simp only [] at hbp
  split at hbp
  · rename_i e heq1
    exact (updateTask_error (wUpdateTaskStatus_error_shape heq1) hmem).elim
  · rename_i w2 heq1
    obtain ⟨q2, hq2, rfl⟩ := wUpdateTaskStatus_ok_shape heq1
    have hids2 := (updateTask_ok_facts hq2).1
    have hmem2 : ∃ t ∈ q2.tasks, t.id = task.id := mem_ids_transfer hids2 hmem
    simp only [runPlanner, runDesigner, runTechLead, runDeveloper,
      invokeWriter, clearMessages, setMailbox, readMessages, getMailbox,
      wPutQueue, hp, hd, htl, Bool.not_true, Bool.false_eq_true, if_false] at hbp
    rw [hpd] at hbp
    simp only [] at hbp
    rw [hds] at hbp
    simp only [] at hbp
    rw [hta] at hbp
    simp only [invokeWriter, clearMessages, setMailbox, hdev,
      Bool.not_true, Bool.false_eq_true, if_false] at hbp
    split at hbp
    · rename_i e heq2
      exact (updateTask_error (wUpdateTaskStatus_error_shape heq2) hmem2).elim
    · rename_i w7 heq2
      obtain ⟨q7, hq7, rfl⟩ := wUpdateTaskStatus_ok_shape heq2
      have hids7 := (updateTask_ok_facts hq7).1
      have hmem7 : ∃ t ∈ q7.tasks, t.id = task.id :=
        mem_ids_transfer hids7 hmem2
      simp only [runReview, readMessages, getMailbox, wPutQueue] at hbp
      rw [hrep] at hbp
      simp only [] at hbp
      rw [if_pos hfail] at hbp
      simp only [Bool.not_false, if_true, hjs] at hbp
      split at hbp
      · rename_i e heq3
        exact (updateTask_error (wRejectTask_error_shape heq3) hmem7).elim
      · rename_i w9 heq3
        obtain ⟨q9, hq9, rfl⟩ := wRejectTask_ok_shape heq3
        simp only [Prod.mk.injEq] at hbp
        obtain ⟨hr, hwf⟩ := hbp
        subst hr hwf
        obtain ⟨t0, ht0m, ht0id, ht0in⟩ := (updateTask_ok_facts hq9).2.2.2.1
        refine ⟨?_, ?_, ?_⟩
        · simp only [processTaskV2, hbp0]
        · simp only [processTaskV2, hbp0, clearMessages, setMailbox,
            wSetCurrentTask, wPutQueue, setCurrentTask, saveQueue]
          exact ⟨_, ht0in, ht0id, rfl, rfl⟩
        · simp only [processTaskV2, hbp0, clearMessages, setMailbox,
            wSetCurrentTask, wPutQueue, setCurrentTask, saveQueue]

/-- Witness for the build-failure auto-reject theorem at the concrete
`envBuildFail` fixture. -/
theorem buildFailure_autoRejects_witness :
    (∃ t ∈ sampleWorld.queue.tasks, t.id = sampleTask.id) ∧
    envBuildFail.planner.result.success = true ∧
    (processTaskV2 envBuildFail sampleTask sampleWorld).1 =
      { success := false, error := some "Build verification failed",
        phase := some PipePhase.review } :=
  ⟨by decide, by decide,
   (buildFailure_autoRejects envBuildFail sampleTask sampleWorld
     (by decide) (by decide)
     (PipelineMessage.planningDocument "task-001") (by decide)
     (by decide)
     (PipelineMessage.designSpecification "task-001"
       { colors := [], spacing := [] }) (by decide)
     (by decide)
     (PipelineMessage.taskAssignment "task-001") (by decide)
     (by decide)
     (PipelineMessage.completionReport "task-001" "failed") (by decide)
     (by decide)).2.1⟩

/-- C2: when the review phase approves, the task always ends in the
completed set with status `completed` (and leaves the active set),
whatever the design-verification outcome; a throwing token extraction is
swallowed and reported as `verified := true`, 0% match, no
discrepancies. -/
theorem approval_always_completes
    (env : PipelineEnv) (task : Task) (w0 : World)
    (hmem : ∃ t ∈ w0.queue.tasks, t.id = task.id)
    (hnd : (w0.queue.tasks.map Task.id).Nodup)
    (hp : env.planner.result.success = true)
    (pd : PipelineMessage)
    (hpd : env.planner.writes.find? (fun m =>
      m.isPlanningDocument && m.taskId = task.id) = some pd)
    (hd : env.designer.result.success = true)
    (ds : PipelineMessage)
    (hds : env.designer.writes.find? (fun m =>
      m.isDesignSpecification && m.taskId = task.id) = some ds)
    (htl : env.techLead.result.success = true)
    (ta : PipelineMessage)
    (hta : env.techLead.writes.find? (fun m =>
      m.isTaskAssignment && m.taskId = task.id) = some ta)
    (hdev : env.developer.result.success = true)
    (rep : PipelineMessage)
    (hrep : env.developer.writes.find? (fun m =>
      m.isCompletionReport && m.taskId = task.id) = some rep)
    (hnf : ¬ rep.buildStatus = "failed")
    (happ : containsSeq (env.review.output.data.map Char.toLower)
      ['a', 'p', 'p', 'r', 'o', 'v', 'e'] = true) :
    (processTaskV2 env task w0).1.success = true ∧
    (processTaskV2 env task w0).1.error = none ∧
    (∃ t ∈ (processTaskV2 env task w0).2.queue.completed,
      t.id = task.id ∧ t.status = TaskStatus.completed) ∧
    (∀ t ∈ (processTaskV2 env task w0).2.queue.tasks, t.id ≠ task.id) ∧
    (∀ err, env.extraction = Except.error err →
      (processTaskV2 env task w0).1.designVerification =
        some { verified := true, matchPercentage := 0, discrepancies := [] }) := by
  rcases hbp : processTaskV2Body env task w0 with ⟨r, wf⟩
  have hbp0 := hbp
  unfold processTaskV2Body at hbp
  simp only [] at hbp
  split at hbp
  · rename_i e heq1
    exact (updateTask_error (wUpdateTaskStatus_error_shape heq1) hmem).elim
  · rename_i w2 heq1
    obtain ⟨q2, hq2, rfl⟩ := wUpdateTaskStatus_ok_shape heq1
    have hids2 := (updateTask_ok_facts hq2).1
    have hmem2 : ∃ t ∈ q2.tasks, t.id = task.id := mem_ids_transfer hids2 hmem
    have hnd2 : (q2.tasks.map Task.id).Nodup := by rw [hids2]; exact hnd
    simp only [runPlanner, runDesigner, runTechLead, runDeveloper,
      invokeWriter, clearMessages, setMailbox, readMessages, getMailbox,
      wPutQueue, hp, hd, htl, Bool.not_true, Bool.false_eq_true, if_false] at hbp
    rw [hpd] at hbp
    simp only [] at hbp
    rw [hds] at hbp
    simp only [] at hbp
    rw [hta] at hbp
    simp only [invokeWriter, clearMessages, setMailbox, hdev,
      Bool.not_true, Bool.false_eq_true, if_false] at hbp
    split at hbp
    · rename_i e heq2
      exact (updateTask_error (wUpdateTaskStatus_error_shape heq2) hmem2).elim
    · rename_i w7 heq2
      obtain ⟨q7, hq7, rfl⟩ := wUpdateTaskStatus_ok_shape heq2
      have hids7 := (updateTask_ok_facts hq7).1
      have hmem7 : ∃ t ∈ q7.tasks, t.id = task.id :=
        mem_ids_transfer hids7 hmem2
      have hnd7 : (q7.tasks.map Task.id).Nodup := by rw [hids7]; exact hnd2
      simp only [runReview, readMessages, getMailbox, wPutQueue,
        invokeReview] at hbp
      rw [hrep] at hbp
      simp only [] at hbp
      rw [if_neg hnf] at hbp
      simp only [happ, if_true, Bool.not_true, Bool.false_eq_true,
        if_false] at hbp
      simp only [runDesignVerification] at hbp
      rcases heqX : env.extraction with err | css
      · rw [heqX] at hbp
        simp only [] at hbp
        split at hbp
        · rename_i e heq3
          exact (completeTask_error (wCompleteTask_error_shape heq3) hmem7).elim
        · rename_i w9 heq3
          obtain ⟨q9, hq9, rfl⟩ := wCompleteTask_ok_shape heq3
          obtain ⟨⟨t0, ht0m, ht0id, ht0in⟩, hsub, hnodup, hcur, hcomp, hcn⟩ :=
            completeTask_ok_facts hq9
          simp only [Prod.mk.injEq] at hbp
          obtain ⟨hr, hwf⟩ := hbp
          subst hr hwf
          refine ⟨?_, ?_, ?_, ?_, ?_⟩
          · simp only [processTaskV2, hbp0]
          · simp only [processTaskV2, hbp0]
          · simp only [processTaskV2, hbp0, clearMessages, setMailbox,
              wSetCurrentTask, wPutQueue, setCurrentTask, saveQueue]
            exact ⟨_, ht0in, ht0id, rfl⟩
          · simp only [processTaskV2, hbp0, clearMessages, setMailbox,
              wSetCurrentTask, wPutQueue, setCurrentTask, saveQueue]
            intro t ht
            exact hnodup hnd7 t ht
          · intro err' _
            simp only [processTaskV2, hbp0]
      · rw [heqX] at hbp
        simp only [] at hbp
        split at hbp
        · rename_i e heq3
          exact (completeTask_error (wCompleteTask_error_shape heq3) hmem7).elim
        · rename_i w9 heq3
          obtain ⟨q9, hq9, rfl⟩ := wCompleteTask_ok_shape heq3
          obtain ⟨⟨t0, ht0m, ht0id, ht0in⟩, hsub, hnodup, hcur, hcomp, hcn⟩ :=
            completeTask_ok_facts hq9
          simp only [Prod.mk.injEq] at hbp
          obtain ⟨hr, hwf⟩ := hbp
          subst hr hwf
          refine ⟨?_, ?_, ?_, ?_, ?_⟩
          · simp only [processTaskV2, hbp0]
          · simp only [processTaskV2, hbp0]
          · simp only [processTaskV2, hbp0, clearMessages, setMailbox,
              wSetCurrentTask, wPutQueue, setCurrentTask, saveQueue]
            exact ⟨_, ht0in, ht0id, rfl⟩
          · simp only [processTaskV2, hbp0, clearMessages, setMailbox,
              wSetCurrentTask, wPutQueue, setCurrentTask, saveQueue]
            intro t ht
            exact hnodup hnd7 t ht
          · intro err' herr'
            exact Except.noConfusion herr'

/-- Witness for the approval-completes theorem at the concrete
`envApproved` fixture (whose token extraction throws). -/
theorem approval_always_completes_witness :
    (List.map Task.id sampleWorld.queue.tasks).Nodup ∧
    (processTaskV2 envApproved sampleTask sampleWorld).1.success = true ∧
    (processTaskV2 envApproved sampleTask sampleWorld).1.designVerification =
      some { verified := true, matchPercentage := 0, discrepancies := [] } := by
  have h := approval_always_completes envApproved sampleTask sampleWorld
    (by decide) (by decide) (by decide)
    (PipelineMessage.planningDocument "task-001") (by decide)
    (by decide)
    (PipelineMessage.designSpecification "task-001"
      { colors := [], spacing := [] }) (by decide)
    (by decide)
    (PipelineMessage.taskAssignment "task-001") (by decide)
    (by decide)
    (PipelineMessage.completionReport "task-001" "success") (by decide)
    (by decide) (by decide)
  exact ⟨by decide, h.1, h.2.2.2.2 "extraction error" rfl⟩

/-! ## The current-pointer invariant -/

/-- The spec's stated invariant on a persisted queue state: a non-null
`current` references an active task with status `in_progress` or
`awaiting_review`. -/
def currentStatusOK (q : TaskQueue) : Bool :=
  match q.current with
  | none => true
  | some i => q.tasks.any (fun t => t.id = i &&
      (t.status = TaskStatus.in_progress ||
       t.status = TaskStatus.awaiting_review))

/-- The invariant the store operations actually maintain: a non-null
`current` references a task in the active set (with no status
restriction). -/
def currentInActive (q : TaskQueue) : Bool :=
  match q.current with
  | none => true
  | some i => q.tasks.any (fun t => t.id = i)

/-- A state with a cleared pointer satisfies the membership invariant. -/
theorem currentInActive_none {q : TaskQueue} (hc : q.current = none) :
    currentInActive q = true := by
  unfold currentInActive
  rw [hc]

/-- A state whose pointer references an active task satisfies the
membership invariant. -/
theorem currentInActive_some {q : TaskQueue} {i : String}
    (hc : q.current = some i) (hm : ∃ t ∈ q.tasks, t.id = i) :
    currentInActive q = true := by
  unfold currentInActive
  rw [hc]
  simp only [List.any_eq_true, decide_eq_true_eq]
  exact hm

/-- Every queue state persisted by the `try` body of `processTaskV2`
keeps a non-null `current` pointing into the active set. -/
theorem processTaskV2Body_trace (env : PipelineEnv) (task : Task) (w0 : World)
    (hmem : ∃ t ∈ w0.queue.tasks, t.id = task.id)
    (htr : ∀ q ∈ w0.queueTrace, currentInActive q = true) :
    ∀ q ∈ (processTaskV2Body env task w0).2.queueTrace,
      currentInActive q = true := by
  have hsnap0 : currentInActive
      (setCurrentTask w0.queue (some task.id) w0.clock) = true :=
    currentInActive_some rfl hmem
  rcases hbp : processTaskV2Body env task w0 with ⟨r, wf⟩
  simp only []
  unfold processTaskV2Body at hbp
  simp only [] at hbp
  split at hbp
  · rename_i e heq1
    simp only [Prod.mk.injEq] at hbp
    obtain ⟨hr, hwf⟩ := hbp
    subst hwf
    intro q hq
    simp only [wSetCurrentTask, wPutQueue, List.mem_append,
      List.mem_singleton] at hq
    rcases hq with hq | rfl
    · exact htr q hq
    · exact hsnap0
  · rename_i w2 heq1
    obtain ⟨q2, hq2, rfl⟩ := wUpdateTaskStatus_ok_shape heq1
    have hf2 := updateTask_ok_facts hq2
    have hmem2 : ∃ t ∈ q2.tasks, t.id = task.id := mem_ids_transfer hf2.1 hmem
    have hc2 : q2.current = some task.id := by
      rw [hf2.2.2.1]
      simp [wSetCurrentTask, wPutQueue, setCurrentTask, saveQueue]
    have h2ok : currentInActive q2 = true := currentInActive_some hc2 hmem2
    have hstep2 : ∀ q, ((q ∈ w0.queueTrace ∨
        q = setCurrentTask w0.queue (some task.id) w0.clock) ∨ q = q2) →
        currentInActive q = true := by
      rintro q ((hq | rfl) | rfl)
      · exact htr q hq
      · exact hsnap0
      · exact h2ok
    simp only [runPlanner, runDesigner, runTechLead, runDeveloper,
      invokeWriter, clearMessages, setMailbox, readMessages, getMailbox,
      wPutQueue] at hbp
    split at hbp
    · simp only [Prod.mk.injEq] at hbp
      obtain ⟨hr, hwf⟩ := hbp
      subst hwf
      intro q hq
      simp only [wSetCurrentTask, wPutQueue, List.mem_append,
        List.mem_singleton] at hq
      exact hstep2 q hq
    · split at hbp
      · simp only [Prod.mk.injEq] at hbp
        obtain ⟨hr, hwf⟩ := hbp
        subst hwf
        intro q hq
        simp only [wSetCurrentTask, wPutQueue, List.mem_append,
          List.mem_singleton] at hq
        exact hstep2 q hq
      · rename_i pd hpd
        split at hbp
        · simp only [Prod.mk.injEq] at hbp
          obtain ⟨hr, hwf⟩ := hbp
          subst hwf
          intro q hq
          simp only [wSetCurrentTask, wPutQueue, List.mem_append,
            List.mem_singleton] at hq
          exact hstep2 q hq
        · split at hbp
          · simp only [Prod.mk.injEq] at hbp
            obtain ⟨hr, hwf⟩ := hbp
            subst hwf
            intro q hq
            simp only [wSetCurrentTask, wPutQueue, List.mem_append,
              List.mem_singleton] at hq
            exact hstep2 q hq
          · rename_i ds hds
            split at hbp
            · simp only [Prod.mk.injEq] at hbp
              obtain ⟨hr, hwf⟩ := hbp
              subst hwf
              intro q hq
              simp only [wSetCurrentTask, wPutQueue, List.mem_append,
                List.mem_singleton] at hq
              exact hstep2 q hq
            · rcases hta : List.find? (fun m =>
                  m.isTaskAssignment && decide (m.taskId = task.id))
                  env.techLead.writes with _ | ta
              · rw [hta] at hbp
                simp only [Bool.not_false, eq_self_iff_true,
                  if_true] at hbp
                simp only [Prod.mk.injEq] at hbp
                obtain ⟨hr, hwf⟩ := hbp
                subst hwf
                intro q hq
                simp only [wSetCurrentTask, wPutQueue, List.mem_append,
                  List.mem_singleton] at hq
                exact hstep2 q hq
              · rw [hta] at hbp
                simp only [] at hbp
                split at hbp
                · simp only [Prod.mk.injEq] at hbp
                  obtain ⟨hr, hwf⟩ := hbp
                  subst hwf
                  intro q hq
                  simp only [wSetCurrentTask, wPutQueue, List.mem_append,
                    List.mem_singleton] at hq
                  exact hstep2 q hq
                · split at hbp
                  · simp only [Prod.mk.injEq] at hbp
                    obtain ⟨hr, hwf⟩ := hbp
                    subst hwf
                    intro q hq
                    simp only [wSetCurrentTask, wPutQueue, List.mem_append,
                      List.mem_singleton] at hq
                    exact hstep2 q hq
                  · rename_i w7 heq2
                    obtain ⟨q7, hq7, rfl⟩ := wUpdateTaskStatus_ok_shape heq2
                    have hf7 := updateTask_ok_facts hq7
                    have hmem7 : ∃ t ∈ q7.tasks, t.id = task.id :=
                      mem_ids_transfer hf7.1 hmem2
                    have hc7 : q7.current = some task.id := by
                      rw [hf7.2.2.1]; exact hc2
                    have h7ok : currentInActive q7 = true :=
                      currentInActive_some hc7 hmem7
                    have hstep3 : ∀ q, (((q ∈ w0.queueTrace ∨
                        q = setCurrentTask w0.queue (some task.id) w0.clock) ∨
                        q = q2) ∨ q = q7) → currentInActive q = true := by
                      rintro q (hq | rfl)
                      · exact hstep2 q hq
                      · exact h7ok
                    simp only [runReview, readMessages, getMailbox,
                      invokeReview, wPutQueue] at hbp
                    rcases hrep : List.find? (fun m =>
                        m.isCompletionReport && decide (m.taskId = task.id))
                        env.developer.writes with _ | rep
                    · rw [hrep] at hbp
                      simp only [Bool.not_false, eq_self_iff_true,
                        if_true] at hbp
                      split at hbp
                      · simp only [Prod.mk.injEq] at hbp
                        obtain ⟨hr, hwf⟩ := hbp
                        subst hwf
                        intro q hq
                        simp only [wSetCurrentTask, wPutQueue, List.mem_append,
                          List.mem_singleton] at hq
                        exact hstep3 q hq
                      · rename_i w9 heq3
                        obtain ⟨q9, hq9, rfl⟩ := wRejectTask_ok_shape heq3
                        have hf9 := updateTask_ok_facts hq9
                        have hc9 : q9.current = some task.id := by
                          rw [hf9.2.2.1]; exact hc7
                        have h9ok : currentInActive q9 = true :=
                          currentInActive_some hc9 (mem_ids_transfer hf9.1 hmem7)
                        simp only [Prod.mk.injEq] at hbp
                        obtain ⟨hr, hwf⟩ := hbp
                        subst hwf
                        intro q hq
                        simp only [wSetCurrentTask, wPutQueue, List.mem_append,
                          List.mem_singleton] at hq
                        rcases hq with hq | rfl
                        · exact hstep3 q hq
                        · exact h9ok
                    · rw [hrep] at hbp
                      simp only [] at hbp
                      by_cases hbs : rep.buildStatus = "failed"
                      · rw [if_pos hbs] at hbp
                        simp only [Bool.not_false, eq_self_iff_true,
                          if_true] at hbp
                        split at hbp
                        · simp only [Prod.mk.injEq] at hbp
                          obtain ⟨hr, hwf⟩ := hbp
                          subst hwf
                          intro q hq
                          simp only [wSetCurrentTask, wPutQueue, List.mem_append,
                            List.mem_singleton] at hq
                          exact hstep3 q hq
                        · rename_i w9 heq3
                          obtain ⟨q9, hq9, rfl⟩ := wRejectTask_ok_shape heq3
                          have hf9 := updateTask_ok_facts hq9
                          have hc9 : q9.current = some task.id := by
                            rw [hf9.2.2.1]; exact hc7
                          have h9ok : currentInActive q9 = true :=
                            currentInActive_some hc9 (mem_ids_transfer hf9.1 hmem7)
                          simp only [Prod.mk.injEq] at hbp
                          obtain ⟨hr, hwf⟩ := hbp
                          subst hwf
                          intro q hq
                          simp only [wSetCurrentTask, wPutQueue, List.mem_append,
                            List.mem_singleton] at hq
                          rcases hq with hq | rfl
                          · exact hstep3 q hq
                          · exact h9ok
                      · rw [if_neg hbs] at hbp
                        by_cases happ : containsSeq
                            (List.map Char.toLower env.review.output.data)
                            ['a', 'p', 'p', 'r', 'o', 'v', 'e'] = true
                        · rw [if_pos happ] at hbp
                          simp only [Bool.not_true, Bool.false_eq_true,
                            if_false] at hbp
                          simp only [runDesignVerification] at hbp
                          rcases heqX : env.extraction with err | css
                          · rw [heqX] at hbp
                            simp only [] at hbp
                            split at hbp
                            · simp only [Prod.mk.injEq] at hbp
                              obtain ⟨hr, hwf⟩ := hbp
                              subst hwf
                              intro q hq
                              simp only [wSetCurrentTask, wPutQueue, List.mem_append,
                                List.mem_singleton] at hq
                              exact hstep3 q hq
                            · rename_i w9 heq3
                              obtain ⟨q9, hq9, rfl⟩ := wCompleteTask_ok_shape heq3
                              obtain ⟨-, -, -, -, -, hcn⟩ := completeTask_ok_facts hq9
                              have h9ok : currentInActive q9 = true :=
                                currentInActive_none (hcn hc7)
                              simp only [Prod.mk.injEq] at hbp
                              obtain ⟨hr, hwf⟩ := hbp
                              subst hwf
                              intro q hq
                              simp only [wSetCurrentTask, wPutQueue, List.mem_append,
                                List.mem_singleton] at hq
                              rcases hq with hq | rfl
                              · exact hstep3 q hq
                              · exact h9ok
                          · rw [heqX] at hbp
                            simp only [] at hbp
                            split at hbp
                            · simp only [Prod.mk.injEq] at hbp
                              obtain ⟨hr, hwf⟩ := hbp
                              subst hwf
                              intro q hq
                              simp only [wSetCurrentTask, wPutQueue, List.mem_append,
                                List.mem_singleton] at hq
                              exact hstep3 q hq
                            · rename_i w9 heq3
                              obtain ⟨q9, hq9, rfl⟩ := wCompleteTask_ok_shape heq3
                              obtain ⟨-, -, -, -, -, hcn⟩ := completeTask_ok_facts hq9
                              have h9ok : currentInActive q9 = true :=
                                currentInActive_none (hcn hc7)
                              simp only [Prod.mk.injEq] at hbp
                              obtain ⟨hr, hwf⟩ := hbp
                              subst hwf
                              intro q hq
                              simp only [wSetCurrentTask, wPutQueue, List.mem_append,
                                List.mem_singleton] at hq
                              rcases hq with hq | rfl
                              · exact hstep3 q hq
                              · exact h9ok
                        · rw [if_neg happ] at hbp
                          simp only [Bool.not_false, eq_self_iff_true,
                            if_true] at hbp
                          split at hbp
                          · simp only [Prod.mk.injEq] at hbp
                            obtain ⟨hr, hwf⟩ := hbp
                            subst hwf
                            intro q hq
                            simp only [wSetCurrentTask, wPutQueue, List.mem_append,
                              List.mem_singleton] at hq
                            exact hstep3 q hq
                          · rename_i w9 heq3
                            obtain ⟨q9, hq9, rfl⟩ := wRejectTask_ok_shape heq3
                            have hf9 := updateTask_ok_facts hq9
                            have hc9 : q9.current = some task.id := by
                              rw [hf9.2.2.1]; exact hc7
                            have h9ok : currentInActive q9 = true :=
                              currentInActive_some hc9 (mem_ids_transfer hf9.1 hmem7)
                            simp only [Prod.mk.injEq] at hbp
                            obtain ⟨hr, hwf⟩ := hbp
                            subst hwf
                            intro q hq
                            simp only [wSetCurrentTask, wPutQueue, List.mem_append,
                              List.mem_singleton] at hq
                            rcases hq with hq | rfl
                            · exact hstep3 q hq
                            · exact h9ok

/-- C3 is violated as stated: on a planner-failure run the first persisted
snapshot has `current` pointing at the task while its status is still
`pending` (`setCurrentTask` is persisted before any status write), so not
every persisted state restricts the referenced status to
`in_progress`/`awaiting_review`. -/
theorem current_pointer_status_cex :
    ¬ ∀ q ∈ (processTaskV2 envPlannerFail sampleTask sampleWorld).2.queueTrace,
        currentStatusOK q = true := by decide

/-- C3 (amended): every queue state persisted during a `processTaskV2` run
keeps the invariant that a non-null `current` references a task in the
active set — but the referenced task's status ranges over `pending`,
`in_progress`, `awaiting_review` and `rejected` at different persisted
states, not only `in_progress`/`awaiting_review`. -/
theorem current_pointer_in_active
    (env : PipelineEnv) (task : Task) (w0 : World)
    (hmem : ∃ t ∈ w0.queue.tasks, t.id = task.id)
    (htr : ∀ q ∈ w0.queueTrace, currentInActive q = true) :
    ∀ q ∈ (processTaskV2 env task w0).2.queueTrace,
      currentInActive q = true := by
  intro q hq
  have hbody := processTaskV2Body_trace env task w0 hmem htr
  rcases hbp : processTaskV2Body env task w0 with ⟨r, wf⟩
  rw [hbp] at hbody
  simp only [processTaskV2, hbp, clearMessages, setMailbox,
    wSetCurrentTask, wPutQueue, List.mem_append, List.mem_singleton] at hq
  rcases hq with hq | rfl
  · exact hbody q hq
  · exact currentInActive_none rfl

/-- Witness for the amended current-pointer invariant at the concrete
`envBuildFail` fixture. -/
theorem current_pointer_in_active_witness :
    (∃ t ∈ sampleWorld.queue.tasks, t.id = sampleTask.id) ∧
    (∀ q ∈ (processTaskV2 envBuildFail sampleTask sampleWorld).2.queueTrace,
      currentInActive q = true) :=
  ⟨by decide, current_pointer_in_active envBuildFail sampleTask sampleWorld
    (by decide) (by decide)⟩

end Orchestrator
